import Mathlib

/-!
Verification of the nydays-geolocation annotation pipeline (`annotate.py`,
`util.py`, `visualize.py`) against its natural-language specification.

Python dictionaries are modelled as association lists (`List (κ × α)`)
preserving insertion order; `dictGet`, `dictInsert`, `dictErase` mirror
`d[k]`, `d[k] = v` and `del d[k]`.  `sys.exit` and uncaught Python
exceptions are modelled with `Except`.  Timestamp parsing
(`dateutil.parser.isoparse`) is kept abstract as a function
`parse : String → String` from the timestamp string to its canonical key;
the pipeline only ever compares parsed timestamps for equality.
-/

namespace Geo

/-- A record of `raw['locations']` (Google timeline export): the fields the
pipeline reads. -/
structure RawEntry where
  timestamp : String
  latitudeE7 : Int
  longitudeE7 : Int
  accuracy : Int
deriving DecidableEq, Repr

/-- A record of `annotated['locations']`: a raw entry plus the geocoded
`state` field. -/
structure AnnEntry where
  timestamp : String
  latitudeE7 : Int
  longitudeE7 : Int
  accuracy : Int
  state : String
deriving DecidableEq, Repr

/-- The in-memory annotated store: the optional `geocoder` tag and the
positional `locations` list. -/
structure Store where
  geocoder : Option String
  locations : List AnnEntry
deriving DecidableEq, Repr

/-- The command-line arguments the core pipeline reads (`parse_args`). -/
structure Flags where
  geocoder : Option String
  email : Option String
  limit : Option Int
  delete_changed : Bool
  delete_missing : Bool
deriving DecidableEq, Repr

section Dict

variable {κ : Type} {α : Type} [DecidableEq κ]

/-- Python `d[k]` / `d.get(k)`: first (and, for a dict, only) binding of `k`. -/
def dictGet : List (κ × α) → κ → Option α
  | [], _ => none
  | p :: d, k => if p.1 = k then some p.2 else dictGet d k

/-- Python `d[k] = v`: overwrite in place if the key is present (keeping its
position), otherwise append at the end (insertion order). -/
def dictInsert (d : List (κ × α)) (k : κ) (v : α) : List (κ × α) :=
  if (dictGet d k).isSome then
    d.map (fun p => if p.1 = k then (k, v) else p)
  else
    d ++ [(k, v)]

/-- Python `del d[k]`: remove the (first) binding of `k`. -/
def dictErase : List (κ × α) → κ → List (κ × α)
  | [], _ => []
  | p :: d, k => if p.1 = k then d else p :: dictErase d k

/-- The keys of a dict, in insertion order. -/
def dictKeys (d : List (κ × α)) : List κ := d.map Prod.fst

@[simp] theorem dictGet_nil (k : κ) : dictGet ([] : List (κ × α)) k = none := rfl

theorem dictGet_cons (p : κ × α) (d : List (κ × α)) (k : κ) :
    dictGet (p :: d) k = if p.1 = k then some p.2 else dictGet d k := rfl

theorem dictGet_append (d₁ d₂ : List (κ × α)) (k : κ) :
    dictGet (d₁ ++ d₂) k = ((dictGet d₁ k).or (dictGet d₂ k)) := by
  induction d₁ with
  | nil => simp [dictGet]
  | cons p d ih =>
    by_cases h : p.1 = k <;> simp [dictGet_cons, h, ih]

theorem dictGet_eq_none_iff (d : List (κ × α)) (k : κ) :
    dictGet d k = none ↔ ∀ p ∈ d, p.1 ≠ k := by
  induction d with
  | nil => simp
  | cons p d ih =>
    by_cases h : p.1 = k <;> simp [dictGet_cons, h, ih]

theorem dictGet_isSome_iff (d : List (κ × α)) (k : κ) :
    (dictGet d k).isSome = true ↔ ∃ p ∈ d, p.1 = k := by
  rw [Option.isSome_iff_ne_none]
  rw [Ne, dictGet_eq_none_iff]
  push_neg
  rfl

theorem dictGet_eq_some_mem (d : List (κ × α)) (k : κ) (v : α)
    (h : dictGet d k = some v) : (k, v) ∈ d := by
  induction d with
  | nil => simp [dictGet] at h
  | cons p d ih =>
    rw [dictGet_cons] at h
    by_cases hp : p.1 = k
    · rw [if_pos hp] at h
      have hpv : p = (k, v) := by
        obtain ⟨a, b⟩ := p
        simp only [Prod.mk.injEq]
        exact ⟨hp, Option.some.inj h⟩
      rw [← hpv]
      exact List.mem_cons_self _ _
    · rw [if_neg hp] at h
      exact List.mem_cons_of_mem _ (ih h)

theorem dictGet_of_mem_nodup (d : List (κ × α)) (k : κ) (v : α)
    (hnd : (dictKeys d).Nodup) (hmem : (k, v) ∈ d) : dictGet d k = some v := by
  induction d with
  | nil => simp at hmem
  | cons p d ih =>
    simp only [dictKeys, List.map_cons, List.nodup_cons] at hnd
    rcases List.mem_cons.mp hmem with h | h
    · subst h
      simp [dictGet_cons]
    · have hne : p.1 ≠ k := by
        intro hk
        exact hnd.1 (hk ▸ List.mem_map_of_mem Prod.fst h)
      simp only [dictGet_cons, if_neg hne]
      exact ih hnd.2 h

/-- Inserting a fresh key appends at the end. -/
theorem dictInsert_fresh (d : List (κ × α)) (k : κ) (v : α)
    (h : dictGet d k = none) : dictInsert d k v = d ++ [(k, v)] := by
  simp [dictInsert, h]

theorem dictErase_of_not_mem (d : List (κ × α)) (k : κ)
    (h : dictGet d k = none) : dictErase d k = d := by
  induction d with
  | nil => rfl
  | cons p d ih =>
    rw [dictGet_cons] at h
    by_cases hp : p.1 = k
    · simp [hp] at h
    · simp only [hp, if_neg] at h
      simp [dictErase, hp, ih h]

/-- Under the dict invariant (no duplicate keys), `del` agrees with filtering
the key out. -/
theorem dictErase_eq_filter (d : List (κ × α)) (k : κ)
    (hnd : (dictKeys d).Nodup) :
    dictErase d k = d.filter (fun p => p.1 ≠ k) := by
  induction d with
  | nil => rfl
  | cons p d ih =>
    simp only [dictKeys, List.map_cons, List.nodup_cons] at hnd
    by_cases hp : p.1 = k
    · have hnone : dictGet d k = none := by
        rw [dictGet_eq_none_iff]
        intro q hq hqk
        exact hnd.1 ((hqk.trans hp.symm) ▸ List.mem_map_of_mem Prod.fst hq)
      simp only [dictErase, if_pos hp]
      rw [List.filter_cons, if_neg (by simp [hp])]
      rw [List.filter_eq_self.mpr]
      intro q hq
      simp only [ne_eq, decide_not, Bool.not_eq_true', decide_eq_false_iff_not]
      exact (dictGet_eq_none_iff d k).mp hnone q hq
    · simp only [dictErase, if_neg hp]
      rw [List.filter_cons, if_pos (by simp [hp]), ih hnd.2]

end Dict

theorem dictKeys_append {κ α : Type} (d₁ d₂ : List (κ × α)) :
    dictKeys (d₁ ++ d₂) = dictKeys d₁ ++ dictKeys d₂ := by
  simp [dictKeys]

/-! ## `map_by_timestamp` (annotate.py, lines 66-81)

The loop body of `map_by_timestamp`: for each index `i` and entry, insert
`ts ↦ entry` into the first dict and `ts ↦ i` into the second, where
`ts = parse(entry['timestamp'])`.  `key` is the composite
`dateutil.parser.isoparse ∘ (·['timestamp'])`, kept abstract. -/
def mapByTsGo {α : Type} (key : α → String) :
    Nat → List α → List (String × α) → List (String × Nat) →
    List (String × α) × List (String × Nat)
  | _, [], d1, d2 => (d1, d2)
  | i, e :: rest, d1, d2 =>
      mapByTsGo key (i + 1) rest (dictInsert d1 (key e) e) (dictInsert d2 (key e) i)

/-- `map_by_timestamp(locations)`: the pair of dicts `ts ↦ entry` and
`ts ↦ index`, built in iteration order. -/
def map_by_timestamp {α : Type} (key : α → String) (locations : List α) :
    List (String × α) × List (String × Nat) :=
  mapByTsGo key 0 locations [] []

/-- The value dict of `map_by_timestamp` when all keys are distinct: each
entry keyed by its timestamp, in order. -/
def keyedList {α : Type} (key : α → String) (locations : List α) : List (String × α) :=
  locations.map (fun e => (key e, e))

/-- The index dict of `map_by_timestamp` when all keys are distinct: each
timestamp mapped to the entry's position (counting from `i`). -/
def indexList {α : Type} (key : α → String) : Nat → List α → List (String × Nat)
  | _, [] => []
  | i, e :: rest => (key e, i) :: indexList key (i + 1) rest

theorem mapByTsGo_eq_of_nodup {α : Type} (key : α → String) (locations : List α)
    (i : Nat) (d1 : List (String × α)) (d2 : List (String × Nat))
    (hnd : (locations.map key).Nodup)
    (h1 : ∀ e ∈ locations, dictGet d1 (key e) = none)
    (h2 : ∀ e ∈ locations, dictGet d2 (key e) = none) :
    mapByTsGo key i locations d1 d2 =
      (d1 ++ keyedList key locations, d2 ++ indexList key i locations) := by
  induction locations generalizing i d1 d2 with
  | nil => simp [mapByTsGo, keyedList, indexList]
  | cons e rest ih =>
    simp only [List.map_cons, List.nodup_cons] at hnd
    rw [mapByTsGo,
      dictInsert_fresh d1 (key e) e (h1 e (List.mem_cons_self _ _)),
      dictInsert_fresh d2 (key e) i (h2 e (List.mem_cons_self _ _))]
    rw [ih (i + 1) _ _ hnd.2]
    · simp [keyedList, indexList]
    · intro x hx
      rw [dictGet_append, h1 x (List.mem_cons_of_mem _ hx), Option.none_or]
      rw [dictGet_cons]
      rw [if_neg]
      · rfl
      · intro hkey
        have hkk : key e = key x := hkey
        exact hnd.1 (hkk.symm ▸ List.mem_map_of_mem key hx)
    · intro x hx
      rw [dictGet_append, h2 x (List.mem_cons_of_mem _ hx), Option.none_or]
      rw [dictGet_cons]
      rw [if_neg]
      · rfl
      · intro hkey
        have hkk : key e = key x := hkey
        exact hnd.1 (hkk.symm ▸ List.mem_map_of_mem key hx)

/-- With distinct parsed timestamps (the store invariant), `map_by_timestamp`
is just the keyed entry list paired with the position map. -/
theorem map_by_timestamp_eq_of_nodup {α : Type} (key : α → String) (locations : List α)
    (hnd : (locations.map key).Nodup) :
    map_by_timestamp key locations = (keyedList key locations, indexList key 0 locations) := by
  rw [map_by_timestamp, mapByTsGo_eq_of_nodup key locations 0 [] [] hnd
    (fun _ _ => rfl) (fun _ _ => rfl)]
  simp

theorem dictKeys_keyedList {α : Type} (key : α → String) (locations : List α) :
    dictKeys (keyedList key locations) = locations.map key := by
  simp [dictKeys, keyedList]

/-- Position of the first entry whose key is `ts`, counting from `i`. -/
def keyIndex {α : Type} (key : α → String) (ts : String) : Nat → List α → Option Nat
  | _, [] => none
  | i, e :: rest => if key e = ts then some i else keyIndex key ts (i + 1) rest

theorem dictGet_indexList {α : Type} (key : α → String) (locations : List α)
    (i : Nat) (ts : String) :
    dictGet (indexList key i locations) ts = keyIndex key ts i locations := by
  induction locations generalizing i with
  | nil => simp [indexList, keyIndex]
  | cons e rest ih =>
    simp only [indexList, dictGet_cons, keyIndex]
    by_cases h : key e = ts
    · simp [h]
    · simp [h, ih (i + 1)]

end Geo

namespace Geo

/-! ## `validate` (annotate.py, lines 84-140) -/

/-- The four-field comparison in `validate` (annotate.py lines 100-103):
an annotated entry counts as changed when any of `latitudeE7`,
`longitudeE7`, `accuracy` or the raw `timestamp` string differs.  The
`state` field is not read. -/
def entryChanged (a : AnnEntry) (r : RawEntry) : Bool :=
  a.latitudeE7 != r.latitudeE7 || a.longitudeE7 != r.longitudeE7 ||
    a.accuracy != r.accuracy || a.timestamp != r.timestamp

/-- The classification loop of `validate` (annotate.py lines 93-104):
returns the `missing` and `changed` timestamp lists, in iteration order of
the annotated dict. -/
def classifyGo : List (String × AnnEntry) → List (String × RawEntry) →
    List String × List String
  | [], _ => ([], [])
  | (ts, a) :: rest, tsRaw =>
      let mc := classifyGo rest tsRaw
      match dictGet tsRaw ts with
      | none => (ts :: mc.1, mc.2)
      | some r => if entryChanged a r then (mc.1, ts :: mc.2) else mc

/-- Closed form: `missing` is the annotated timestamps absent from the raw
dict, in order. -/
theorem classifyGo_fst (tsAnn : List (String × AnnEntry)) (tsRaw : List (String × RawEntry)) :
    (classifyGo tsAnn tsRaw).1 =
      (tsAnn.filter (fun p => (dictGet tsRaw p.1).isNone)).map Prod.fst := by
  induction tsAnn with
  | nil => rfl
  | cons p rest ih =>
    obtain ⟨ts, a⟩ := p
    cases hget : dictGet tsRaw ts with
    | none => simp [classifyGo, hget, List.filter_cons, ih]
    | some r =>
      cases hch : entryChanged a r <;>
        simp [classifyGo, hget, hch, List.filter_cons, ih]

/-- Closed form: `changed` is the annotated timestamps present in the raw
dict whose entries differ in one of the four compared fields, in order. -/
theorem classifyGo_snd (tsAnn : List (String × AnnEntry)) (tsRaw : List (String × RawEntry)) :
    (classifyGo tsAnn tsRaw).2 =
      (tsAnn.filter (fun p =>
        match dictGet tsRaw p.1 with
        | none => false
        | some r => entryChanged p.2 r)).map Prod.fst := by
  induction tsAnn with
  | nil => rfl
  | cons p rest ih =>
    obtain ⟨ts, a⟩ := p
    cases hget : dictGet tsRaw ts with
    | none => simp [classifyGo, hget, List.filter_cons, ih]
    | some r =>
      cases hch : entryChanged a r <;>
        simp [classifyGo, hget, hch, List.filter_cons, ih]

/-- Outcome of `sys.exit(1)` or an uncaught Python exception inside
`validate`. -/
inductive ValidateExit where
  /-- `sys.exit(1)` at line 118, carrying the timestamps printed in the two
  `ERROR:` diagnostics (missing class, then changed class). -/
  | exit (printedMissing printedChanged : List String)
  /-- `KeyError` from `ts_to_annotated_index[ts]` (unreachable when the index
  dict covers the annotated dict). -/
  | keyError
deriving DecidableEq, Repr

/-- Result of a `validate` call that returns normally. -/
structure ValidateResult where
  /-- `ts_to_annotated` after the requested deletions. -/
  tsToAnnotated : List (String × AnnEntry)
  /-- the store, with `annotated['locations']` after the index-based
  deletions. -/
  store : Store
deriving DecidableEq, Repr

/-- Insert into a descending-sorted list (used to model Python
`sorted(indices, reverse=True)`). -/
def insertDesc (i : Nat) : List Nat → List Nat
  | [] => [i]
  | j :: rest => if j ≤ i then i :: j :: rest else j :: insertDesc i rest

/-- `sorted(l, reverse=True)`. -/
def sortDesc (l : List Nat) : List Nat := l.foldr insertDesc []

/-- `for i in sorted(indices, reverse=True): del lst[i]`
(annotate.py lines 139-140). -/
def removeDescIndices {α : Type} (l : List α) (indices : List Nat) : List α :=
  (sortDesc indices).foldl (fun acc i => acc.eraseIdx i) l

/-- Look every timestamp up in `ts_to_annotated_index`; `none` models the
(unreachable) `KeyError`. -/
def lookupIndices (tsAnnIndex : List (String × Nat)) : List String → Option (List Nat)
  | [] => some []
  | ts :: rest =>
      match dictGet tsAnnIndex ts with
      | none => none
      | some i =>
          match lookupIndices tsAnnIndex rest with
          | none => none
          | some l => some (i :: l)

/-- `validate(ts_to_annotated, ts_to_raw, ts_to_annotated_index, annotated)`
(annotate.py lines 84-140).  Classify annotated entries as missing/changed;
exit when a nonempty class lacks its delete flag (printing both offending
classes); otherwise delete the flagged entries from the annotated dict and,
by descending original index, from the positional `locations` list. -/
def validate (flags : Flags) (tsAnn : List (String × AnnEntry))
    (tsRaw : List (String × RawEntry)) (tsAnnIndex : List (String × Nat))
    (store : Store) : Except ValidateExit ValidateResult :=
  let mc := classifyGo tsAnn tsRaw
  let missing := mc.1
  let changed := mc.2
  if (missing ≠ [] ∧ ¬flags.delete_missing) ∨ (changed ≠ [] ∧ ¬flags.delete_changed) then
    Except.error (ValidateExit.exit
      (if missing ≠ [] ∧ ¬flags.delete_missing then missing else [])
      (if changed ≠ [] ∧ ¬flags.delete_changed then changed else []))
  else
    match lookupIndices tsAnnIndex (missing ++ changed) with
    | none => Except.error ValidateExit.keyError
    | some indices =>
        Except.ok
          { tsToAnnotated := (missing ++ changed).foldl dictErase tsAnn,
            store := { store with
              locations := removeDescIndices store.locations indices } }

/-! ## `trim` (annotate.py, lines 143-150) -/

/-- `trim(ts_to_annotated, ts_to_raw)`: delete every annotated timestamp from
the raw dict; `del` on an absent key is a `KeyError`, modelled as
`Except.error`. -/
def trim : List (String × AnnEntry) → List (String × RawEntry) →
    Except Unit (List (String × RawEntry))
  | [], tsRaw => Except.ok tsRaw
  | (ts, _) :: rest, tsRaw =>
      if (dictGet tsRaw ts).isSome then trim rest (dictErase tsRaw ts)
      else Except.error ()

end Geo

namespace Geo

/-! ## `annotate` (annotate.py, lines 153-205) -/

/-- Python truthiness of `args.limit` (an `int` option): truthy when present
and nonzero. -/
def limitTruthy (limit : Option Int) : Bool :=
  match limit with
  | none => false
  | some n => n != 0

/-- The coordinate-collection loop (annotate.py lines 176-181): append each
pending entry, breaking once `args.limit` is truthy and the collected count
reaches it.  `n` is the number already collected. -/
def collectCoordsGo (limit : Option Int) : Nat → List RawEntry → List RawEntry
  | _, [] => []
  | n, e :: rest =>
      if limitTruthy limit ∧ ((n : Int) + 1) ≥ limit.getD 0 then [e]
      else e :: collectCoordsGo limit (n + 1) rest

/-- `entry['latitudeE7'] / 1E7, entry['longitudeE7'] / 1E7` (lines 178-179),
with exact rational division standing for the float division; the geocoding
backend is abstract, so only the positional correspondence of coordinates
matters. -/
def toCoord (e : RawEntry) : ℚ × ℚ :=
  ((e.latitudeE7 : ℚ) / 10000000, (e.longitudeE7 : ℚ) / 10000000)

/-- The entry appended for one zipped `(state, raw_entry)` pair
(annotate.py lines 197-205). -/
def mkAnnEntry (state : String) (r : RawEntry) : AnnEntry :=
  { timestamp := r.timestamp, latitudeE7 := r.latitudeE7,
    longitudeE7 := r.longitudeE7, accuracy := r.accuracy, state := state }

/-- The values of `ts_to_raw`, in dict iteration (insertion) order. -/
def pendingOf (tsRaw : List (String × RawEntry)) : List RawEntry :=
  tsRaw.map Prod.snd

/-- The coordinate list submitted to the backend (annotate.py lines
176-181). -/
def coordsOf (flags : Flags) (tsRaw : List (String × RawEntry)) : List (ℚ × ℚ) :=
  (collectCoordsGo flags.limit 0 (pendingOf tsRaw)).map toCoord

/-- The body of `annotate` after the geocoder-tag handling (lines 176-205):
collect coordinates (respecting the limit), call the backend, zip the
returned states positionally with the pending entries and append; report the
remaining count when fewer states than pending entries came back.
`g` abstracts `geocode(coords, tag)` for the selected backend. -/
def annotateBody (flags : Flags) (g : List (ℚ × ℚ) → List String)
    (store : Store) (tsRaw : List (String × RawEntry)) : Store × Option Nat :=
  let coords := coordsOf flags tsRaw
  if coords = [] then (store, none)
  else
    let states := g coords
    let remaining :=
      if states.length < tsRaw.length then some (tsRaw.length - states.length)
      else none
    ({ store with
        locations := store.locations ++
          List.zipWith mkAnnEntry states (pendingOf tsRaw) },
      remaining)

/-- `annotate(annotated, ts_to_raw)` (annotate.py lines 153-205).  First the
geocoder-tag handling (lines 162-173): reject a conflicting command-line
backend with `sys.exit(1)` (`Except.error`), set the tag when absent
(`args.geocoder or 'local'`); then the annotation body. -/
def annotate (flags : Flags) (g : List (ℚ × ℚ) → List String)
    (store : Store) (tsRaw : List (String × RawEntry)) :
    Except Unit (Store × Option Nat) :=
  match store.geocoder, flags.geocoder with
  | some t, some r =>
      if t ≠ r then Except.error ()
      else Except.ok (annotateBody flags g store tsRaw)
  | some _, none => Except.ok (annotateBody flags g store tsRaw)
  | none, req =>
      Except.ok (annotateBody flags g
        { store with geocoder := some (req.getD "local") } tsRaw)

/-! ## `geocode_local` (annotate.py, lines 221-297) -/

/-- The `admin1 → state code` table of `geocode_local`
(annotate.py lines 231-283). -/
def admin_to_state : List (String × String) :=
  [("Alabama", "AL"), ("Alaska", "AK"), ("Arizona", "AZ"), ("Arkansas", "AR"),
   ("California", "CA"), ("Colorado", "CO"), ("Connecticut", "CT"),
   ("Delaware", "DE"), ("Washington, D.C.", "DC"), ("Florida", "FL"),
   ("Georgia", "GA"), ("Hawaii", "HI"), ("Idaho", "ID"), ("Illinois", "IL"),
   ("Indiana", "IN"), ("Iowa", "IA"), ("Kansas", "KS"), ("Kentucky", "KY"),
   ("Louisiana", "LA"), ("Maine", "ME"), ("Maryland", "MD"),
   ("Massachusetts", "MA"), ("Michigan", "MI"), ("Minnesota", "MN"),
   ("Mississippi", "MS"), ("Missouri", "MO"), ("Montana", "MT"),
   ("Nebraska", "NE"), ("Nevada", "NV"), ("New Hampshire", "NH"),
   ("New Jersey", "NJ"), ("New Mexico", "NM"), ("New York", "NY"),
   ("North Carolina", "NC"), ("North Dakota", "ND"), ("Ohio", "OH"),
   ("Oklahoma", "OK"), ("Oregon", "OR"), ("Pennsylvania", "PA"),
   ("Rhode Island", "RI"), ("South Carolina", "SC"), ("South Dakota", "SD"),
   ("Tennessee", "TN"), ("Texas", "TX"), ("Utah", "UT"), ("Vermont", "VT"),
   ("Virginia", "VA"), ("Washington", "WA"), ("West Virginia", "WV"),
   ("Wisconsin", "WI"), ("Wyoming", "WY")]

/-- One result of `rg.search`: the fields `geocode_local` reads. -/
structure RgResult where
  cc : String
  admin1 : String
deriving DecidableEq, Repr

/-- Outcome of `geocode_local`. -/
inductive LocalOutcome where
  /-- normal return of the accumulated state list -/
  | ok (states : List String)
  /-- `sys.exit(1)` at line 294 after printing the unexpected `admin1`
  value -/
  | fatal (badAdmin1 : String)
deriving DecidableEq, Repr

/-- The result loop of `geocode_local` (annotate.py lines 285-297), taking
the `rg.search` results positionally aligned with the input coordinates:
non-US results append `EX`; a US result with an `admin1` outside the table
is a fatal error; otherwise the mapped code is appended. -/
def geocode_local : List RgResult → LocalOutcome
  | [] => LocalOutcome.ok []
  | res :: rest =>
      if res.cc ≠ "US" then
        match geocode_local rest with
        | LocalOutcome.ok states => LocalOutcome.ok ("EX" :: states)
        | LocalOutcome.fatal b => LocalOutcome.fatal b
      else
        match dictGet admin_to_state res.admin1 with
        | none => LocalOutcome.fatal res.admin1
        | some code =>
            match geocode_local rest with
            | LocalOutcome.ok states => LocalOutcome.ok (code :: states)
            | LocalOutcome.fatal b => LocalOutcome.fatal b

/-- Per-result resolution of the local geocoder: `EX` outside the US, the
table lookup for US results (`none` = fatal). -/
def resolveLocal (res : RgResult) : Option String :=
  if res.cc ≠ "US" then some "EX" else dictGet admin_to_state res.admin1

/-! ## `geocode_osm` (annotate.py, lines 300-446) -/

/-- The `state → state code` table of `geocode_osm`
(annotate.py lines 304-360); territories map to `EX`. -/
def translate_state : List (String × String) :=
  [("Alabama", "AL"), ("Alaska", "AK"), ("Arizona", "AZ"), ("Arkansas", "AR"),
   ("California", "CA"), ("Colorado", "CO"), ("Connecticut", "CT"),
   ("Delaware", "DE"), ("District of Columbia", "DC"), ("Florida", "FL"),
   ("Georgia", "GA"), ("Guam", "EX"), ("Hawaii", "HI"), ("Idaho", "ID"),
   ("Illinois", "IL"), ("Indiana", "IN"), ("Iowa", "IA"), ("Kansas", "KS"),
   ("Kentucky", "KY"), ("Louisiana", "LA"), ("Maine", "ME"),
   ("Maryland", "MD"), ("Massachusetts", "MA"), ("Michigan", "MI"),
   ("Minnesota", "MN"), ("Mississippi", "MS"), ("Missouri", "MO"),
   ("Montana", "MT"), ("Nebraska", "NE"), ("Nevada", "NV"),
   ("New Hampshire", "NH"), ("New Jersey", "NJ"), ("New Mexico", "NM"),
   ("New York", "NY"), ("North Carolina", "NC"), ("North Dakota", "ND"),
   ("Northern Mariana Islands", "EX"), ("Ohio", "OH"), ("Oklahoma", "OK"),
   ("Oregon", "OR"), ("Pennsylvania", "PA"), ("Puerto Rico", "EX"),
   ("Rhode Island", "RI"), ("South Carolina", "SC"), ("South Dakota", "SD"),
   ("Tennessee", "TN"), ("Texas", "TX"), ("Utah", "UT"), ("Vermont", "VT"),
   ("Virginia", "VA"), ("United States Virgin Islands", "EX"),
   ("Washington", "WA"), ("West Virginia", "WV"), ("Wisconsin", "WI"),
   ("Wyoming", "WY")]

/-- The `address` object of a Nominatim JSON response: the fields the loop
reads (`None` models an absent key). -/
structure OsmAddress where
  country_code : Option String
  state : Option String
deriving DecidableEq, Repr

/-- What one request of the `geocode_osm` loop observes. -/
inductive OsmResponse where
  /-- `KeyboardInterrupt` raised while handling this request -/
  | interrupt
  /-- `r.status_code != requests.codes.ok` -/
  | httpError (code : Nat)
  /-- `r.json()` raises `ValueError` -/
  | notJson
  /-- a JSON body; `hasError` is `'error' in rjson`, `address` is `None`
  when `'address' not in rjson` -/
  | json (hasError : Bool) (address : Option OsmAddress)
deriving DecidableEq, Repr

/-- The request loop of `geocode_osm` (annotate.py lines 382-446), with the
observed responses aligned positionally with the coordinates.  Any stop
condition (HTTP error, malformed body, unrecognized state value, keyboard
interrupt) terminates the loop; the states accumulated so far are returned
in every case. -/
def geocode_osm_loop : List (ℚ × ℚ) → List OsmResponse → List String
  | [], _ => []
  | _ :: _, [] => []
  | _ :: cs, resp :: rs =>
      match resp with
      | OsmResponse.interrupt => []
      | OsmResponse.httpError _ => []
      | OsmResponse.notJson => []
      | OsmResponse.json hasError address =>
          if hasError then "EX" :: geocode_osm_loop cs rs
          else
            match address with
            | none => "EX" :: geocode_osm_loop cs rs
            | some addr =>
                if addr.country_code ≠ some "us" then "EX" :: geocode_osm_loop cs rs
                else
                  match addr.state with
                  | none => "EX" :: geocode_osm_loop cs rs
                  | some rstate =>
                      match dictGet translate_state rstate with
                      | none => []
                      | some code => code :: geocode_osm_loop cs rs

/-- `geocode_osm(coords)` (annotate.py lines 300-446): fail with
`sys.exit(1)` when no email address was given (line 362-364), otherwise run
the request loop. -/
def geocode_osm (email : Option String) (coords : List (ℚ × ℚ))
    (responses : List OsmResponse) : Except Unit (List String) :=
  if email.isNone then Except.error ()
  else Except.ok (geocode_osm_loop coords responses)

/-- Per-response resolution of the remote geocoder: `some code` when the
loop appends a state code, `none` on any of the stop conditions. -/
def resolveOsmResponse : OsmResponse → Option String
  | OsmResponse.interrupt => none
  | OsmResponse.httpError _ => none
  | OsmResponse.notJson => none
  | OsmResponse.json hasError address =>
      if hasError then some "EX"
      else
        match address with
        | none => some "EX"
        | some addr =>
            if addr.country_code ≠ some "us" then some "EX"
            else
              match addr.state with
              | none => some "EX"
              | some rstate => dictGet translate_state rstate

end Geo

namespace Geo

/-! ## `util.write_json_file` (util.py, lines 24-31)

`json.dump(data, f, sort_keys=True, indent=2)` specialized to the store
shape: a deterministic serializer emitting keys in sorted order
(`accuracy < latitudeE7 < longitudeE7 < state < timestamp`, and
`geocoder < locations`).  String escaping is elided: the serialized strings
are ISO timestamps and 2-5 letter codes. -/

/-- A JSON string literal (escaping elided). -/
def jsonString (s : String) : String := "\"" ++ s ++ "\""

/-- One `locations` element with its five keys in sorted order. -/
def jsonOfAnnEntry (e : AnnEntry) : String :=
  "\x7b\n      \"accuracy\": " ++ toString e.accuracy ++
    ",\n      \"latitudeE7\": " ++ toString e.latitudeE7 ++
    ",\n      \"longitudeE7\": " ++ toString e.longitudeE7 ++
    ",\n      \"state\": " ++ jsonString e.state ++
    ",\n      \"timestamp\": " ++ jsonString e.timestamp ++
    "\n    \x7d"

/-- The `locations` array. -/
def jsonOfLocations : List AnnEntry → String
  | [] => "[]"
  | es => "[\n    " ++ String.intercalate ",\n    " (es.map jsonOfAnnEntry) ++ "\n  ]"

/-- `write_json_file(annotated, ...)`: the bytes written for a store, with
deterministic (sorted) key order. -/
def write_json_file (store : Store) : String :=
  let geocoderField :=
    match store.geocoder with
    | none => ""
    | some t => "  \"geocoder\": " ++ jsonString t ++ ",\n"
  "\x7b\n" ++ geocoderField ++ "  \"locations\": " ++
    jsonOfLocations store.locations ++ "\n\x7d"

/-! ## `util.read_json_file` (util.py, lines 5-21) and `main`
(annotate.py, lines 11-39) -/

/-- State of a file on disk, as `read_json_file` distinguishes it. -/
inductive FileState (α : Type) where
  /-- file exists and parses as JSON data -/
  | present (data : α)
  /-- `open` raises `FileNotFoundError` -/
  | absent
  /-- `open` or `json.load` raises another `OSError` -/
  | unreadable
deriving DecidableEq, Repr

/-- `read_json_file(filename, default)` (util.py lines 5-21): the value the
caller receives (`Option α`, with `none` for Python `None`), or
`Except.error` for `sys.exit(1)`.  On `FileNotFoundError` with
`default=None`, the function prints an `ERROR:` diagnostic and then falls
through, returning `None` — there is no `sys.exit` on that path. -/
def read_json_file {α : Type} (file : FileState α) (default : Option α) :
    Except Unit (Option α) :=
  match file with
  | FileState.present d => Except.ok (some d)
  | FileState.absent =>
      match default with
      | some dflt => Except.ok (some dflt)
      | none => Except.ok none
  | FileState.unreadable => Except.error ()

/-- How a run of `annotate.py main` can terminate abnormally while loading
the store. -/
inductive PyExit where
  /-- `sys.exit(1)` -/
  | sysExit
  /-- uncaught `TypeError` from subscripting `None`
  (`annotated['locations']`, annotate.py line 21) -/
  | typeError
deriving DecidableEq, Repr

/-- The store-loading step of `main` (annotate.py lines 15 and 21):
`annotated = util.read_json_file(args.annotated)` — called without a
`default` argument — followed by the subscript
`map_by_timestamp(annotated['locations'])`. -/
def mainLoadAnnotated (file : FileState Store) : Except PyExit Store :=
  match read_json_file file none with
  | Except.error _ => Except.error PyExit.sysExit
  | Except.ok none => Except.error PyExit.typeError
  | Except.ok (some s) => Except.ok s

/-! ## The pipeline driver `main` (annotate.py, lines 11-39) -/

/-- How a pipeline run terminates without writing the store file. -/
inductive ExitKind where
  /-- `sys.exit(1)` in `validate`, with the printed offending timestamps -/
  | validateExit (printedMissing printedChanged : List String)
  /-- `KeyError` in `validate`'s deletion bookkeeping (unreachable for dicts
  produced by `map_by_timestamp`) -/
  | validateKeyError
  /-- `KeyError` in `trim` -/
  | trimKeyError
  /-- `sys.exit(1)` in `annotate` on a conflicting `--geocoder` -/
  | configMismatch
deriving DecidableEq, Repr

/-- `main` after loading the files (annotate.py lines 20-39):
`map_by_timestamp` on both data sets, `validate`, `trim`, `annotate`.
On success the returned store is what `write_json_file` persists; on error
the carried store is the in-memory annotated data at exit time. -/
def pipeline (flags : Flags) (g : List (ℚ × ℚ) → List String)
    (parse : String → String) (rawLocs : List RawEntry) (store : Store) :
    Except (ExitKind × Store) Store :=
  let tsRaw := (map_by_timestamp (fun e : RawEntry => parse e.timestamp) rawLocs).1
  let annMaps := map_by_timestamp (fun e : AnnEntry => parse e.timestamp) store.locations
  match validate flags annMaps.1 tsRaw annMaps.2 store with
  | Except.error (ValidateExit.exit pm pc) =>
      Except.error (ExitKind.validateExit pm pc, store)
  | Except.error ValidateExit.keyError =>
      Except.error (ExitKind.validateKeyError, store)
  | Except.ok vres =>
      match trim vres.tsToAnnotated tsRaw with
      | Except.error _ => Except.error (ExitKind.trimKeyError, vres.store)
      | Except.ok pending =>
          match annotate flags g vres.store pending with
          | Except.error _ => Except.error (ExitKind.configMismatch, vres.store)
          | Except.ok (store', _) => Except.ok store'

/-- The bytes of the annotated store file after a run: `main` reaches
`util.write_json_file` (line 39) only when no `sys.exit`/exception fired. -/
def persistedAfterRun (flags : Flags) (g : List (ℚ × ℚ) → List String)
    (parse : String → String) (rawLocs : List RawEntry) (store : Store)
    (oldBytes : String) : String :=
  match pipeline flags g parse rawLocs store with
  | Except.error _ => oldBytes
  | Except.ok s => write_json_file s

end Geo

namespace Geo

/-! ## `util.is_midnight` (util.py, lines 34-41) and `visualize.summarize`
(visualize.py, lines 41-86)

Wall-clock datetimes in the US/Eastern timezone are modelled as a calendar
day index plus microseconds since local midnight; `datetime + timedelta`
performs wall-clock arithmetic, modelled exactly by linear microsecond
arithmetic with day carry.  The conversion
`isoparse(rec['startTime']).astimezone(eastern)` is external input, so a
record carries its already-converted Eastern start time. -/

/-- A timezone-aware wall-clock instant: calendar day index and microseconds
since that day's local midnight (`0 ≤ usec < 86400000000` for values built
by `addMinutes`). -/
structure LocalTime where
  day : Int
  usec : Int
deriving DecidableEq, Repr

/-- `start + datetime.timedelta(minutes=offset)` on wall-clock fields. -/
def addMinutes (t : LocalTime) (offset : Int) : LocalTime :=
  let total : Int := t.day * 86400000000 + t.usec + offset * 60000000
  { day := total.fdiv 86400000000, usec := total.emod 86400000000 }

/-- `time.hour` of a (normalized) wall-clock instant. -/
def hourOf (t : LocalTime) : Int := t.usec / 3600000000

/-- `time.minute`. -/
def minuteOf (t : LocalTime) : Int := t.usec % 3600000000 / 60000000

/-- `time.second`. -/
def secondOf (t : LocalTime) : Int := t.usec % 60000000 / 1000000

/-- `time.microsecond`. -/
def microsecondOf (t : LocalTime) : Int := t.usec % 1000000

/-- `util.is_midnight(time)`: hour, minute, second and microsecond all
zero. -/
def is_midnight (t : LocalTime) : Bool :=
  hourOf t == 0 && minuteOf t == 0 && secondOf t == 0 && microsecondOf t == 0

/-- One element of `rec['timelinePath']`: the fields `summarize` reads. -/
structure TimelinePoint where
  durationMinutesOffsetFromStartTime : Int
  state : String
deriving DecidableEq, Repr

/-- One semantic-location record: `summarize` reads the parsed, Eastern-
converted `startTime` and the `timelinePath` list. -/
structure TimelineRecord where
  startEastern : LocalTime
  timelinePath : List TimelinePoint
deriving DecidableEq, Repr

/-- The day-bucket summary `{day: {state: count, ...}, ...}`, insertion
ordered. -/
abbrev Summary := List (Int × List (String × Nat))

/-- The gap-filling loop (visualize.py lines 62-67): insert empty buckets
for the days strictly between `last_day` and `day`. -/
def gapFill (s : Summary) (lastDay : Option Int) (day : Int) : Summary :=
  match lastDay with
  | none => s
  | some ld =>
      if ld < day then
        (List.range (day - ld - 1).toNat).foldl
          (fun acc k => dictInsert acc (ld + 1 + k) []) s
      else s

/-- The per-point body of `summarize` (visualize.py lines 56-84): bucket
the point's day and state, then — for a point at exactly local midnight —
also increment the previous day's count for that state.
`summary[day - 1][state] += 1` (line 84) subscripts without inserting
missing keys, so either absent key raises `KeyError`
(`Except.error`). -/
def summarizeStep (acc : Summary × Option Int) (start : LocalTime)
    (p : TimelinePoint) : Except Unit (Summary × Option Int) :=
  let pointTime := addMinutes start p.durationMinutesOffsetFromStartTime
  let day := pointTime.day
  let s1 := gapFill acc.1 acc.2 day
  let s2 := if (dictGet s1 day).isSome then s1 else dictInsert s1 day []
  let dayEntry := (dictGet s2 day).getD []
  let dayEntry1 :=
    if (dictGet dayEntry p.state).isSome then dayEntry
    else dictInsert dayEntry p.state 0
  let dayEntry2 :=
    dictInsert dayEntry1 p.state ((dictGet dayEntry1 p.state).getD 0 + 1)
  let s3 := dictInsert s2 day dayEntry2
  if is_midnight pointTime then
    match dictGet s3 (day - 1) with
    | none => Except.error ()
    | some de =>
        match dictGet de p.state with
        | none => Except.error ()
        | some n =>
            Except.ok (dictInsert s3 (day - 1) (dictInsert de p.state (n + 1)), some day)
  else Except.ok (s3, some day)

/-- The inner loop over `rec['timelinePath']`. -/
def summarizePoints (start : LocalTime) :
    Summary × Option Int → List TimelinePoint → Except Unit (Summary × Option Int)
  | acc, [] => Except.ok acc
  | acc, p :: rest =>
      match summarizeStep acc start p with
      | Except.error e => Except.error e
      | Except.ok acc' => summarizePoints start acc' rest

/-- The outer loop over the records. -/
def summarizeRecs : Summary × Option Int → List TimelineRecord → Except Unit Summary
  | acc, [] => Except.ok acc.1
  | acc, r :: rest =>
      match summarizePoints r.startEastern acc r.timelinePath with
      | Except.error e => Except.error e
      | Except.ok acc' => summarizeRecs acc' rest

/-- `summarize(annotated)` (visualize.py lines 41-86). -/
def summarize (records : List TimelineRecord) : Except Unit Summary :=
  summarizeRecs ([], none) records

end Geo

namespace Geo

/-! ## Claims C4, C5, C6, C10 -/

/-- The loop never returns more results than it was given coordinates. -/
theorem geocode_osm_loop_length_le (coords : List (ℚ × ℚ))
    (responses : List OsmResponse) :
    (geocode_osm_loop coords responses).length ≤ coords.length := by
  induction coords generalizing responses with
  | nil => simp [geocode_osm_loop]
  | cons c cs ih =>
    cases responses with
    | nil => simp [geocode_osm_loop]
    | cons resp rs =>
      cases resp with
      | interrupt => simp [geocode_osm_loop]
      | httpError code => simp [geocode_osm_loop]
      | notJson => simp [geocode_osm_loop]
      | json hasError address =>
        cases hasError with
        | true => simpa [geocode_osm_loop] using ih rs
        | false =>
          cases address with
          | none => simpa [geocode_osm_loop] using ih rs
          | some addr =>
            by_cases hcc : addr.country_code ≠ some "us"
            · simpa [geocode_osm_loop, hcc] using ih rs
            · cases hst : addr.state with
              | none => simpa [geocode_osm_loop, hcc, hst] using ih rs
              | some rstate =>
                cases hlook : dictGet translate_state rstate with
                | none => simp [geocode_osm_loop, hcc, hst, hlook]
                | some code => simpa [geocode_osm_loop, hcc, hst, hlook] using ih rs

/-- The loop returns exactly the resolutions of the longest prefix of
responses that resolve, dropping everything at and after the first stop
condition. -/
theorem geocode_osm_loop_char (coords : List (ℚ × ℚ)) (responses : List OsmResponse)
    (hlen : responses.length = coords.length) :
    geocode_osm_loop coords responses =
      (responses.takeWhile (fun r => (resolveOsmResponse r).isSome)).filterMap
        resolveOsmResponse := by
  induction coords generalizing responses with
  | nil =>
    have hr : responses = [] := List.length_eq_zero.mp (by simpa using hlen)
    subst hr
    rfl
  | cons c cs ih =>
    cases responses with
    | nil => simp at hlen
    | cons resp rs =>
      have hlen' : rs.length = cs.length := by simpa using hlen
      cases resp with
      | interrupt => simp [geocode_osm_loop, resolveOsmResponse, List.takeWhile_cons]
      | httpError code => simp [geocode_osm_loop, resolveOsmResponse, List.takeWhile_cons]
      | notJson => simp [geocode_osm_loop, resolveOsmResponse, List.takeWhile_cons]
      | json hasError address =>
        cases hasError with
        | true =>
          simp [geocode_osm_loop, resolveOsmResponse, List.takeWhile_cons,
            List.filterMap_cons, ih rs hlen']
        | false =>
          cases address with
          | none =>
            simp [geocode_osm_loop, resolveOsmResponse, List.takeWhile_cons,
              List.filterMap_cons, ih rs hlen']
          | some addr =>
            by_cases hcc : addr.country_code ≠ some "us"
            · simp [geocode_osm_loop, resolveOsmResponse, hcc, List.takeWhile_cons,
                List.filterMap_cons, ih rs hlen']
            · have hcc' : addr.country_code = some "us" := not_not.mp hcc
              cases hst : addr.state with
              | none =>
                simp [geocode_osm_loop, resolveOsmResponse, hcc, hcc', hst,
                  List.takeWhile_cons, List.filterMap_cons, ih rs hlen']
              | some rstate =>
                cases hlook : dictGet translate_state rstate with
                | none =>
                  simp [geocode_osm_loop, resolveOsmResponse, hcc, hcc', hst, hlook,
                    List.takeWhile_cons, List.filterMap_cons]
                | some code =>
                  simp [geocode_osm_loop, resolveOsmResponse, hcc, hcc', hst, hlook,
                    List.takeWhile_cons, List.filterMap_cons, ih rs hlen']

/-- C4: when the remote (osm) adapter stops early — on a non-OK HTTP status,
a non-JSON body, an unrecognized state value, or a keyboard interrupt — it
returns exactly the results accumulated for the successfully processed
prefix of the coordinates (never discarding them and never raising), and
the returned list is never longer than the input. -/
theorem c4_osm_partial_results (email : Option String) (coords : List (ℚ × ℚ))
    (responses : List OsmResponse)
    (hemail : email.isSome = true)
    (hlen : responses.length = coords.length) :
    geocode_osm email coords responses =
      Except.ok ((responses.takeWhile (fun r => (resolveOsmResponse r).isSome)).filterMap
        resolveOsmResponse) ∧
    (geocode_osm_loop coords responses).length ≤ coords.length := by
  constructor
  · have hnone : email.isNone = false := by
      cases email with
      | none => simp at hemail
      | some e => rfl
    rw [geocode_osm, hnone]
    simp only [Bool.false_eq_true, if_false]
    rw [geocode_osm_loop_char coords responses hlen]
  · exact geocode_osm_loop_length_le coords responses

/-- Witness for C4 at a concrete run: three coordinates, the second request
failing with HTTP 500, so exactly the first resolution is returned. -/
theorem c4_osm_partial_results_witness :
    geocode_osm (some "user.example") [(1, 1), (2, 2), (3, 3)]
      [OsmResponse.json false (some { country_code := some "us", state := some "New York" }),
       OsmResponse.httpError 500,
       OsmResponse.json false none] = Except.ok ["NY"] ∧
    (geocode_osm_loop [((1 : ℚ), (1 : ℚ)), (2, 2), (3, 3)]
      [OsmResponse.json false (some { country_code := some "us", state := some "New York" }),
       OsmResponse.httpError 500,
       OsmResponse.json false none]).length ≤ 3 := by
  have h := c4_osm_partial_results (some "user.example") [(1, 1), (2, 2), (3, 3)]
    [OsmResponse.json false (some { country_code := some "us", state := some "New York" }),
     OsmResponse.httpError 500,
     OsmResponse.json false none] rfl rfl
  refine ⟨?_, h.2⟩
  rw [h.1]
  rfl

/-- C5 (the claim fails; evaluation of the code at the failing input): with
the annotated store file absent, `read_json_file` — called by `main` with
no `default` — returns Python `None` after printing an error, and `main`
then crashes with a `TypeError` instead of proceeding with an empty
store. -/
theorem c5_missing_store_file_crashes :
    read_json_file (FileState.absent : FileState Store) none = Except.ok none ∧
    mainLoadAnnotated FileState.absent = Except.error PyExit.typeError :=
  ⟨rfl, rfl⟩

/-- C6 (the claim fails; evaluation of the code at the failing input): a
single point at exactly local midnight of day 0 — with no earlier bucket —
makes `summarize` raise `KeyError` on `summary[day - 1][state] += 1`
instead of double-counting; when the previous day's bucket already holds
the state, the double count does happen (second conjunct). -/
theorem c6_midnight_previous_day_keyerror :
    summarize [{ startEastern := { day := 0, usec := 0 },
                 timelinePath := [{ durationMinutesOffsetFromStartTime := 0, state := "NY" }] }] =
      Except.error () ∧
    summarize [{ startEastern := { day := 0, usec := 86340000000 },
                 timelinePath :=
                  [{ durationMinutesOffsetFromStartTime := 0, state := "NY" },
                   { durationMinutesOffsetFromStartTime := 1, state := "NY" }] }] =
      Except.ok [(0, [("NY", 2)]), (1, [("NY", 1)])] :=
  ⟨rfl, rfl⟩

/-- C10: characterization of the local geocoder: the first result that is
US-coded but outside the `admin_to_state` table makes the run fatal,
carrying that `admin1` value (which the code prints before `sys.exit(1)`);
with no such result, every entry resolves — `EX` for non-US results, the
table code for US results — and an unrecognized US region never resolves
(in particular never to `EX`). -/
theorem c10_local_geocoder (results : List RgResult) :
    geocode_local results =
      (match results.find? (fun r => (resolveLocal r).isNone) with
       | none => LocalOutcome.ok (results.filterMap resolveLocal)
       | some bad => LocalOutcome.fatal bad.admin1) ∧
    (∀ r : RgResult, r.cc ≠ "US" → resolveLocal r = some "EX") ∧
    (∀ r : RgResult, r.cc = "US" → dictGet admin_to_state r.admin1 = none →
      resolveLocal r = none) := by
  refine ⟨?_, ?_, ?_⟩
  · induction results with
    | nil => rfl
    | cons res rest ih =>
      cases hres : resolveLocal res with
      | none =>
        have hcc : res.cc = "US" := by
          by_contra h
          simp [resolveLocal, h] at hres
        have hlook : dictGet admin_to_state res.admin1 = none := by
          simpa [resolveLocal, hcc] using hres
        simp [geocode_local, hcc, hlook, List.find?_cons, hres]
      | some code =>
        have hskip : (resolveLocal res).isNone = false := by simp [hres]
        by_cases hcc : res.cc = "US"
        · have hlook : dictGet admin_to_state res.admin1 = some code := by
            simpa [resolveLocal, hcc] using hres
          cases hfind : rest.find? (fun r => (resolveLocal r).isNone) with
          | none =>
            have hrest : geocode_local rest = LocalOutcome.ok (rest.filterMap resolveLocal) := by
              rw [ih, hfind]
          
            simp [geocode_local, hcc, hlook, hrest, List.find?_cons, hskip,
              List.filterMap_cons, hres, hfind]
          | some bad =>
            have hrest : geocode_local rest = LocalOutcome.fatal bad.admin1 := by
              rw [ih, hfind]
            simp [geocode_local, hcc, hlook, hrest, List.find?_cons, hskip, hfind]
        · have hcode : code = "EX" := by
            have := hres
            simp [resolveLocal, hcc] at this
            exact this.symm
          cases hfind : rest.find? (fun r => (resolveLocal r).isNone) with
          | none =>
            have hrest : geocode_local rest = LocalOutcome.ok (rest.filterMap resolveLocal) := by
              rw [ih, hfind]
            simp [geocode_local, hcc, hrest, List.find?_cons, hskip,
              List.filterMap_cons, hres, hcode, hfind]
          | some bad =>
            have hrest : geocode_local rest = LocalOutcome.fatal bad.admin1 := by
              rw [ih, hfind]
            simp [geocode_local, hcc, hrest, List.find?_cons, hskip, hfind]
  · intro r h
    simp [resolveLocal, h]
  · intro r hcc hlook
    simp [resolveLocal, hcc, hlook]

/-- Witness for C10 at concrete inputs: a US result maps through the table,
a non-US result yields `EX`; an unrecognized US region is fatal, and the
fatal case carries (prints) the offending value. -/
theorem c10_local_geocoder_witness :
    geocode_local [RgResult.mk "US" "New York", RgResult.mk "FR" "Brittany"] =
      LocalOutcome.ok ["NY", "EX"] ∧
    geocode_local [RgResult.mk "US" "New York", RgResult.mk "US" "Ontario"] =
      LocalOutcome.fatal "Ontario" := by
  constructor
  · have h := c10_local_geocoder [RgResult.mk "US" "New York", RgResult.mk "FR" "Brittany"]
    rw [h.1]
    rfl
  · have h := c10_local_geocoder [RgResult.mk "US" "New York", RgResult.mk "US" "Ontario"]
    rw [h.1]
    rfl

end Geo

namespace Geo

/-! ## Claim C1 -/

/-- The coordinate-collection loop yields a prefix of the pending list. -/
theorem collectCoordsGo_prefix (limit : Option Int) (n : Nat) (l : List RawEntry) :
    collectCoordsGo limit n l <+: l := by
  induction l generalizing n with
  | nil => simp [collectCoordsGo]
  | cons e rest ih =>
    rw [collectCoordsGo]
    by_cases h : limitTruthy limit = true ∧ ((n : Int) + 1) ≥ limit.getD 0
    · rw [if_pos h]
      exact ⟨rest, rfl⟩
    · rw [if_neg h]
      obtain ⟨t, ht⟩ := ih (n + 1)
      exact ⟨t, by rw [List.cons_append, ht]⟩

/-- The loop collects at least one entry when anything is pending. -/
theorem collectCoordsGo_ne_nil (limit : Option Int) (n : Nat) (e : RawEntry)
    (rest : List RawEntry) : collectCoordsGo limit n (e :: rest) ≠ [] := by
  rw [collectCoordsGo]
  by_cases h : limitTruthy limit = true ∧ ((n : Int) + 1) ≥ limit.getD 0
  · rw [if_pos h]
    simp
  · rw [if_neg h]
    simp

/-- `zip` truncates to the shorter list: zipping against a list is zipping
against its prefix of the first list's length. -/
theorem zipWith_take_length {α β γ : Type} (f : α → β → γ) (as : List α) (bs : List β) :
    List.zipWith f as bs = List.zipWith f as (bs.take as.length) := by
  induction as generalizing bs with
  | nil => simp
  | cons a as ih =>
    cases bs with
    | nil => simp
    | cons b bs =>
      rw [List.length_cons, List.take_succ_cons, List.zipWith_cons_cons,
        List.zipWith_cons_cons, ih]

/-- Any `Except.ok` run of `annotate` is a run of `annotateBody` on a store
with the same location list. -/
theorem annotate_ok_body (flags : Flags) (g : List (ℚ × ℚ) → List String)
    (store : Store) (tsRaw : List (String × RawEntry)) (store' : Store)
    (rem : Option Nat)
    (hrun : annotate flags g store tsRaw = Except.ok (store', rem)) :
    ∃ base : Store, base.locations = store.locations ∧
      annotateBody flags g base tsRaw = (store', rem) := by
  cases hg : store.geocoder with
  | some t =>
    cases hf : flags.geocoder with
    | some r =>
      simp only [annotate, hg, hf] at hrun
      by_cases hne : t ≠ r
      · rw [if_pos hne] at hrun
        cases hrun
      · rw [if_neg hne] at hrun
        exact ⟨store, rfl, Except.ok.inj hrun⟩
    | none =>
      simp only [annotate, hg, hf] at hrun
      exact ⟨store, rfl, Except.ok.inj hrun⟩
  | none =>
    simp only [annotate, hg] at hrun
    exact ⟨{ store with geocoder := some (flags.geocoder.getD "local") }, rfl,
      Except.ok.inj hrun⟩

/-- C1: in an annotator run where `n` coordinates are submitted and the
backend returns `k ≤ n` states, the submitted coordinates are those of the
first `n` pending points in iteration order; exactly the first `k` pending
points are appended to the store, each entry copying
`timestamp`/`latitudeE7`/`longitudeE7`/`accuracy` from its raw point and its
`state` from the positionally aligned result (`mkAnnEntry`); the later
points are not added (exactly `k` entries are appended), and their number is
reported as the remaining count whenever it is nonzero. -/
theorem c1_positional_merge (flags : Flags) (g : List (ℚ × ℚ) → List String)
    (store : Store) (tsRaw : List (String × RawEntry)) (store' : Store)
    (rem : Option Nat)
    (hrun : annotate flags g store tsRaw = Except.ok (store', rem))
    (hk : (g (coordsOf flags tsRaw)).length ≤ (coordsOf flags tsRaw).length) :
    coordsOf flags tsRaw =
      ((pendingOf tsRaw).take (coordsOf flags tsRaw).length).map toCoord ∧
    store'.locations = store.locations ++
      List.zipWith mkAnnEntry (g (coordsOf flags tsRaw))
        ((pendingOf tsRaw).take (g (coordsOf flags tsRaw)).length) ∧
    store'.locations.length = store.locations.length + (g (coordsOf flags tsRaw)).length ∧
    ((g (coordsOf flags tsRaw)).length < tsRaw.length →
      rem = some (tsRaw.length - (g (coordsOf flags tsRaw)).length)) ∧
    ((g (coordsOf flags tsRaw)).length = tsRaw.length → rem = none) := by
  obtain ⟨base, hbase, hbody⟩ := annotate_ok_body flags g store tsRaw store' rem hrun
  have hprefix : collectCoordsGo flags.limit 0 (pendingOf tsRaw) <+: pendingOf tsRaw :=
    collectCoordsGo_prefix flags.limit 0 (pendingOf tsRaw)
  have hcollect_take : collectCoordsGo flags.limit 0 (pendingOf tsRaw) =
      (pendingOf tsRaw).take (collectCoordsGo flags.limit 0 (pendingOf tsRaw)).length :=
    List.prefix_iff_eq_take.mp hprefix
  have hcoords_len : (coordsOf flags tsRaw).length =
      (collectCoordsGo flags.limit 0 (pendingOf tsRaw)).length := by
    simp [coordsOf]
  have hcoords_take : coordsOf flags tsRaw =
      ((pendingOf tsRaw).take (coordsOf flags tsRaw).length).map toCoord := by
    rw [hcoords_len, coordsOf]
    rw [← hcollect_take]
  have hn_le : (coordsOf flags tsRaw).length ≤ (pendingOf tsRaw).length := by
    rw [hcoords_len]
    exact hprefix.sublist.length_le
  have hpend_len : (pendingOf tsRaw).length = tsRaw.length := by
    simp [pendingOf]
  by_cases hc : coordsOf flags tsRaw = []
  · -- nothing pending: the body returns the store unchanged
    have hpend : pendingOf tsRaw = [] := by
      cases htsr : pendingOf tsRaw with
      | nil => rfl
      | cons e rest =>
        exfalso
        apply collectCoordsGo_ne_nil flags.limit 0 e rest
        have : (coordsOf flags tsRaw).length = 0 := by rw [hc]; rfl
        rw [hcoords_len, htsr] at this
        exact List.length_eq_zero.mp this
    have hraw : tsRaw = [] := by
      have := hpend_len
      rw [hpend] at this
      exact List.length_eq_zero.mp this.symm
    rw [annotateBody] at hbody
    simp only [hc, if_pos rfl] at hbody
    have hk0 : (g (coordsOf flags tsRaw)).length = 0 := by
      have := hk
      rw [hc] at this ⊢
      simpa using this
    obtain ⟨hst, hrem⟩ := Prod.mk.injEq .. ▸ hbody
    refine ⟨hcoords_take, ?_, ?_, ?_, ?_⟩
    · rw [← hst, hbase, hk0]
      simp [hpend]
    · rw [← hst, hbase, hk0]
      omega
    · intro hlt
      rw [hraw] at hlt
      simp [hk0] at hlt
    · intro _
      exact hrem.symm
  · -- coordinates were submitted
    rw [annotateBody] at hbody
    simp only [hc, if_neg, if_false] at hbody
    obtain ⟨hst, hrem⟩ := Prod.mk.injEq .. ▸ hbody
    have hk_le_pend : (g (coordsOf flags tsRaw)).length ≤ (pendingOf tsRaw).length :=
      le_trans hk hn_le
    refine ⟨hcoords_take, ?_, ?_, ?_, ?_⟩
    · rw [← hst, hbase]
      rw [zipWith_take_length mkAnnEntry (g (coordsOf flags tsRaw)) (pendingOf tsRaw)]
    · rw [← hst, hbase]
      simp only [List.length_append, List.length_zipWith, List.length_take]
      congr 1
      omega
    · intro hlt
      rw [← hrem]
      simp [hlt]
    · intro heq
      rw [← hrem]
      simp [heq]

end Geo

namespace Geo

/-- Witness for C1: three pending points, a limit of two, and a backend
returning one state: exactly the first pending point is appended and two
entries are reported remaining. -/
theorem c1_positional_merge_witness :
    coordsOf
        { geocoder := none, email := none, limit := some 2,
          delete_changed := false, delete_missing := false }
        [("t1", { timestamp := "t1", latitudeE7 := 1, longitudeE7 := 2, accuracy := 3 }),
         ("t2", { timestamp := "t2", latitudeE7 := 4, longitudeE7 := 5, accuracy := 6 }),
         ("t3", { timestamp := "t3", latitudeE7 := 7, longitudeE7 := 8, accuracy := 9 })] =
      ((pendingOf
        [("t1", { timestamp := "t1", latitudeE7 := 1, longitudeE7 := 2, accuracy := 3 }),
         ("t2", { timestamp := "t2", latitudeE7 := 4, longitudeE7 := 5, accuracy := 6 }),
         ("t3", { timestamp := "t3", latitudeE7 := 7, longitudeE7 := 8, accuracy := 9 })]).take
        (coordsOf
          { geocoder := none, email := none, limit := some 2,
            delete_changed := false, delete_missing := false }
          [("t1", { timestamp := "t1", latitudeE7 := 1, longitudeE7 := 2, accuracy := 3 }),
           ("t2", { timestamp := "t2", latitudeE7 := 4, longitudeE7 := 5, accuracy := 6 }),
           ("t3", { timestamp := "t3", latitudeE7 := 7, longitudeE7 := 8, accuracy := 9 })]).length).map
        toCoord ∧
    (Store.mk (some "local")
        [{ timestamp := "t1", latitudeE7 := 1, longitudeE7 := 2, accuracy := 3,
           state := "NY" }]).locations =
      (Store.mk (some "local") []).locations ++
        List.zipWith mkAnnEntry
          ((fun _ => ["NY"])
            (coordsOf
              { geocoder := none, email := none, limit := some 2,
                delete_changed := false, delete_missing := false }
              [("t1", { timestamp := "t1", latitudeE7 := 1, longitudeE7 := 2, accuracy := 3 }),
               ("t2", { timestamp := "t2", latitudeE7 := 4, longitudeE7 := 5, accuracy := 6 }),
               ("t3", { timestamp := "t3", latitudeE7 := 7, longitudeE7 := 8, accuracy := 9 })]))
          ((pendingOf
            [("t1", { timestamp := "t1", latitudeE7 := 1, longitudeE7 := 2, accuracy := 3 }),
             ("t2", { timestamp := "t2", latitudeE7 := 4, longitudeE7 := 5, accuracy := 6 }),
             ("t3", { timestamp := "t3", latitudeE7 := 7, longitudeE7 := 8, accuracy := 9 })]).take 1) ∧
    (Store.mk (some "local")
        [{ timestamp := "t1", latitudeE7 := 1, longitudeE7 := 2, accuracy := 3,
           state := "NY" }]).locations.length =
      (Store.mk (some "local") []).locations.length + 1 ∧
    Option.some 2 = some (3 - 1) := by
  have h := c1_positional_merge
    { geocoder := none, email := none, limit := some 2,
      delete_changed := false, delete_missing := false }
    (fun _ => ["NY"])
    (Store.mk (some "local") [])
    [("t1", { timestamp := "t1", latitudeE7 := 1, longitudeE7 := 2, accuracy := 3 }),
     ("t2", { timestamp := "t2", latitudeE7 := 4, longitudeE7 := 5, accuracy := 6 }),
     ("t3", { timestamp := "t3", latitudeE7 := 7, longitudeE7 := 8, accuracy := 9 })]
    (Store.mk (some "local")
      [{ timestamp := "t1", latitudeE7 := 1, longitudeE7 := 2, accuracy := 3,
         state := "NY" }])
    (some 2) rfl (by decide)
  exact ⟨h.1, h.2.1, h.2.2.1, h.2.2.2.1 (by decide)⟩

end Geo

namespace Geo

/-! ## Claim C2 -/

/-- Bool-level four-field comparison unfolded to the four inequalities. -/
theorem entryChanged_iff (a : AnnEntry) (r : RawEntry) :
    entryChanged a r = true ↔
      (a.latitudeE7 ≠ r.latitudeE7 ∨ a.longitudeE7 ≠ r.longitudeE7 ∨
       a.accuracy ≠ r.accuracy ∨ a.timestamp ≠ r.timestamp) := by
  simp [entryChanged, or_assoc]

/-- The classification loop reads only the timestamp key and the four
compared fields: two annotated dicts that agree on those (but may differ in
`state`) classify identically. -/
theorem classifyGo_state_irrelevant (tsAnn tsAnn2 : List (String × AnnEntry))
    (tsRaw : List (String × RawEntry))
    (hsame : List.Forall₂ (fun p q : String × AnnEntry =>
      p.1 = q.1 ∧ p.2.timestamp = q.2.timestamp ∧ p.2.latitudeE7 = q.2.latitudeE7 ∧
      p.2.longitudeE7 = q.2.longitudeE7 ∧ p.2.accuracy = q.2.accuracy) tsAnn tsAnn2) :
    classifyGo tsAnn2 tsRaw = classifyGo tsAnn tsRaw := by
  induction hsame with
  | nil => rfl
  | @cons a b l₁ l₂ hab htail ih =>
    obtain ⟨ts, ae⟩ := a
    obtain ⟨ts2, be⟩ := b
    obtain ⟨hts, hT, hla, hlo, hac⟩ := hab
    simp only at hts hT hla hlo hac
    subst hts
    cases hget : dictGet tsRaw ts with
    | none => simp [classifyGo, hget, ih]
    | some r =>
      have hch : entryChanged be r = entryChanged ae r := by
        simp [entryChanged, hT, hla, hlo, hac]
      cases h : entryChanged ae r <;>
        simp [classifyGo, hget, hch, h, ih]

/-- C2: under the default policy (no delete flag), `validate` calls
`sys.exit(1)` exactly when some annotated timestamp is missing from the raw
dict or its raw counterpart differs in `latitudeE7`, `longitudeE7`,
`accuracy` or the `timestamp` string; the printed diagnostic lists exactly
the offending timestamps, grouped into the missing and the changed class;
and the `state` field never takes part in the classification. -/
theorem c2_default_reconciliation (flags : Flags)
    (tsAnn tsAnn2 : List (String × AnnEntry)) (tsRaw : List (String × RawEntry))
    (tsAnnIndex : List (String × Nat)) (store : Store)
    (hdm : flags.delete_missing = false) (hdc : flags.delete_changed = false)
    (hsame : List.Forall₂ (fun p q : String × AnnEntry =>
      p.1 = q.1 ∧ p.2.timestamp = q.2.timestamp ∧ p.2.latitudeE7 = q.2.latitudeE7 ∧
      p.2.longitudeE7 = q.2.longitudeE7 ∧ p.2.accuracy = q.2.accuracy) tsAnn tsAnn2) :
    ((∃ pm pc, validate flags tsAnn tsRaw tsAnnIndex store =
        Except.error (ValidateExit.exit pm pc)) ↔
      ∃ p ∈ tsAnn, dictGet tsRaw p.1 = none ∨
        ∃ r, dictGet tsRaw p.1 = some r ∧
          (p.2.latitudeE7 ≠ r.latitudeE7 ∨ p.2.longitudeE7 ≠ r.longitudeE7 ∨
           p.2.accuracy ≠ r.accuracy ∨ p.2.timestamp ≠ r.timestamp)) ∧
    (∀ pm pc, validate flags tsAnn tsRaw tsAnnIndex store =
        Except.error (ValidateExit.exit pm pc) →
      (∀ ts, ts ∈ pm ↔ ∃ a, (ts, a) ∈ tsAnn ∧ dictGet tsRaw ts = none) ∧
      (∀ ts, ts ∈ pc ↔ ∃ a r, (ts, a) ∈ tsAnn ∧ dictGet tsRaw ts = some r ∧
        entryChanged a r = true)) ∧
    classifyGo tsAnn2 tsRaw = classifyGo tsAnn tsRaw := by
  have hmem_m : ∀ ts, ts ∈ (classifyGo tsAnn tsRaw).1 ↔
      ∃ a, (ts, a) ∈ tsAnn ∧ dictGet tsRaw ts = none := by
    intro ts
    rw [classifyGo_fst]
    constructor
    · intro h
      obtain ⟨p, hp, hfst⟩ := List.mem_map.mp h
      have := List.mem_filter.mp hp
      refine ⟨p.2, ?_, ?_⟩
      · rw [← hfst]
        exact this.1
      · have h2 := this.2
        rw [hfst] at h2
        simpa using h2
    · rintro ⟨a, hmem, hnone⟩
      exact List.mem_map.mpr ⟨(ts, a),
        List.mem_filter.mpr ⟨hmem, by simpa using hnone⟩, rfl⟩
  have hmem_c : ∀ ts, ts ∈ (classifyGo tsAnn tsRaw).2 ↔
      ∃ a r, (ts, a) ∈ tsAnn ∧ dictGet tsRaw ts = some r ∧
        entryChanged a r = true := by
    intro ts
    rw [classifyGo_snd]
    constructor
    · intro h
      obtain ⟨p, hp, hfst⟩ := List.mem_map.mp h
      have := List.mem_filter.mp hp
      have h2 := this.2
      rw [hfst] at h2
      cases hget : dictGet tsRaw ts with
      | none => rw [hget] at h2; simp at h2
      | some r =>
        rw [hget] at h2
        simp only at h2
        refine ⟨p.2, r, ?_, rfl, h2⟩
        rw [← hfst]
        exact this.1
    · rintro ⟨a, r, hmem, hsome, hch⟩
      exact List.mem_map.mpr ⟨(ts, a),
        List.mem_filter.mpr ⟨hmem, by rw [hsome]; simpa using hch⟩, rfl⟩
  have hcond_iff : (((classifyGo tsAnn tsRaw).1 ≠ [] ∧ ¬flags.delete_missing = true) ∨
      ((classifyGo tsAnn tsRaw).2 ≠ [] ∧ ¬flags.delete_changed = true)) ↔
      ((classifyGo tsAnn tsRaw).1 ≠ [] ∨ (classifyGo tsAnn tsRaw).2 ≠ []) := by
    rw [hdm, hdc]
    simp
  refine ⟨?_, ?_, classifyGo_state_irrelevant tsAnn tsAnn2 tsRaw hsame⟩
  · constructor
    · rintro ⟨pm, pc, hval⟩
      by_cases hcond : ((classifyGo tsAnn tsRaw).1 ≠ [] ∧ ¬flags.delete_missing = true) ∨
          ((classifyGo tsAnn tsRaw).2 ≠ [] ∧ ¬flags.delete_changed = true)
      · rcases hcond_iff.mp hcond with hnm | hnc
        · obtain ⟨ts, hts⟩ := List.exists_mem_of_ne_nil _ hnm
          obtain ⟨a, hmem, hnone⟩ := (hmem_m ts).mp hts
          exact ⟨(ts, a), hmem, Or.inl hnone⟩
        · obtain ⟨ts, hts⟩ := List.exists_mem_of_ne_nil _ hnc
          obtain ⟨a, r, hmem, hsome, hch⟩ := (hmem_c ts).mp hts
          exact ⟨(ts, a), hmem, Or.inr ⟨r, hsome, (entryChanged_iff a r).mp hch⟩⟩
      · exfalso
        simp only [validate, if_neg hcond] at hval
        cases hlook : lookupIndices tsAnnIndex
            ((classifyGo tsAnn tsRaw).1 ++ (classifyGo tsAnn tsRaw).2) with
        | none => rw [hlook] at hval; cases hval
        | some indices => rw [hlook] at hval; cases hval
    · rintro ⟨p, hmem, hoff⟩
      have hcond : ((classifyGo tsAnn tsRaw).1 ≠ [] ∧ ¬flags.delete_missing = true) ∨
          ((classifyGo tsAnn tsRaw).2 ≠ [] ∧ ¬flags.delete_changed = true) := by
        apply hcond_iff.mpr
        rcases hoff with hnone | ⟨r, hsome, hdiff⟩
        · left
          intro hnil
          have : p.1 ∈ (classifyGo tsAnn tsRaw).1 :=
            (hmem_m p.1).mpr ⟨p.2, by simpa using hmem, hnone⟩
          rw [hnil] at this
          simp at this
        · right
          intro hnil
          have : p.1 ∈ (classifyGo tsAnn tsRaw).2 :=
            (hmem_c p.1).mpr ⟨p.2, r, by simpa using hmem, hsome,
              (entryChanged_iff p.2 r).mpr hdiff⟩
          rw [hnil] at this
          simp at this
      refine ⟨(if (classifyGo tsAnn tsRaw).1 ≠ [] ∧ ¬flags.delete_missing = true
          then (classifyGo tsAnn tsRaw).1 else []),
        (if (classifyGo tsAnn tsRaw).2 ≠ [] ∧ ¬flags.delete_changed = true
          then (classifyGo tsAnn tsRaw).2 else []), ?_⟩
      simp only [validate, if_pos hcond]
  · intro pm pc hval
    by_cases hcond : ((classifyGo tsAnn tsRaw).1 ≠ [] ∧ ¬flags.delete_missing = true) ∨
        ((classifyGo tsAnn tsRaw).2 ≠ [] ∧ ¬flags.delete_changed = true)
    · simp only [validate, if_pos hcond] at hval
      have hinj := (Except.error.inj hval)
      have hpm : pm = (if (classifyGo tsAnn tsRaw).1 ≠ [] ∧ ¬flags.delete_missing = true
          then (classifyGo tsAnn tsRaw).1 else []) := by
        cases hinj; rfl
      have hpc : pc = (if (classifyGo tsAnn tsRaw).2 ≠ [] ∧ ¬flags.delete_changed = true
          then (classifyGo tsAnn tsRaw).2 else []) := by
        cases hinj; rfl
      constructor
      · intro ts
        rw [hpm]
        by_cases hnm : (classifyGo tsAnn tsRaw).1 = []
        · rw [if_neg (by simp [hnm])]
          rw [← hnm]
          exact hmem_m ts
        · rw [if_pos ⟨hnm, by simp [hdm]⟩]
          exact hmem_m ts
      · intro ts
        rw [hpc]
        by_cases hnc : (classifyGo tsAnn tsRaw).2 = []
        · rw [if_neg (by simp [hnc])]
          rw [← hnc]
          exact hmem_c ts
        · rw [if_pos ⟨hnc, by simp [hdc]⟩]
          exact hmem_c ts
    · exfalso
      simp only [validate, if_neg hcond] at hval
      cases hlook : lookupIndices tsAnnIndex
          ((classifyGo tsAnn tsRaw).1 ++ (classifyGo tsAnn tsRaw).2) with
      | none => rw [hlook] at hval; cases hval
      | some indices => rw [hlook] at hval; cases hval

end Geo

namespace Geo

/-- Witness for C2 at a concrete input: one annotated point whose `accuracy`
differs from the raw file (state fields differing between the two annotated
dicts). -/
theorem c2_default_reconciliation_witness :
    ((∃ pm pc, validate
        { geocoder := none, email := none, limit := none,
          delete_changed := false, delete_missing := false }
        [("t1", { timestamp := "t1", latitudeE7 := 1, longitudeE7 := 2,
                  accuracy := 3, state := "NY" })]
        [("t1", { timestamp := "t1", latitudeE7 := 1, longitudeE7 := 2, accuracy := 9 })]
        [("t1", 0)]
        { geocoder := none,
          locations := [{ timestamp := "t1", latitudeE7 := 1, longitudeE7 := 2,
                          accuracy := 3, state := "NY" }] } =
        Except.error (ValidateExit.exit pm pc)) ↔
      ∃ p ∈ [("t1", { timestamp := "t1", latitudeE7 := 1, longitudeE7 := 2,
                      accuracy := 3, state := "NY" : AnnEntry })],
        dictGet [("t1", { timestamp := "t1", latitudeE7 := 1, longitudeE7 := 2,
                          accuracy := 9 : RawEntry })] p.1 = none ∨
        ∃ r, dictGet [("t1", { timestamp := "t1", latitudeE7 := 1, longitudeE7 := 2,
                               accuracy := 9 : RawEntry })] p.1 = some r ∧
          (p.2.latitudeE7 ≠ r.latitudeE7 ∨ p.2.longitudeE7 ≠ r.longitudeE7 ∨
           p.2.accuracy ≠ r.accuracy ∨ p.2.timestamp ≠ r.timestamp)) ∧
    classifyGo
        [("t1", { timestamp := "t1", latitudeE7 := 1, longitudeE7 := 2,
                  accuracy := 3, state := "CA" })]
        [("t1", { timestamp := "t1", latitudeE7 := 1, longitudeE7 := 2, accuracy := 9 })] =
      classifyGo
        [("t1", { timestamp := "t1", latitudeE7 := 1, longitudeE7 := 2,
                  accuracy := 3, state := "NY" })]
        [("t1", { timestamp := "t1", latitudeE7 := 1, longitudeE7 := 2, accuracy := 9 })] := by
  have h := c2_default_reconciliation
    { geocoder := none, email := none, limit := none,
      delete_changed := false, delete_missing := false }
    [("t1", { timestamp := "t1", latitudeE7 := 1, longitudeE7 := 2,
              accuracy := 3, state := "NY" })]
    [("t1", { timestamp := "t1", latitudeE7 := 1, longitudeE7 := 2,
              accuracy := 3, state := "CA" })]
    [("t1", { timestamp := "t1", latitudeE7 := 1, longitudeE7 := 2, accuracy := 9 })]
    [("t1", 0)]
    { geocoder := none,
      locations := [{ timestamp := "t1", latitudeE7 := 1, longitudeE7 := 2,
                      accuracy := 3, state := "NY" }] }
    rfl rfl
    (List.Forall₂.cons ⟨rfl, rfl, rfl, rfl, rfl⟩ List.Forall₂.nil)
  exact ⟨h.1, h.2.2⟩

end Geo

namespace Geo

/-! ## Claim C9 (shared validate/erase lemmas) -/

/-- Membership characterization of the `missing` class. -/
theorem mem_classify_missing (tsAnn : List (String × AnnEntry))
    (tsRaw : List (String × RawEntry)) (ts : String) :
    ts ∈ (classifyGo tsAnn tsRaw).1 ↔
      ∃ a, (ts, a) ∈ tsAnn ∧ dictGet tsRaw ts = none := by
  rw [classifyGo_fst]
  constructor
  · intro h
    obtain ⟨p, hp, hfst⟩ := List.mem_map.mp h
    have hf := List.mem_filter.mp hp
    refine ⟨p.2, ?_, ?_⟩
    · rw [← hfst]
      exact hf.1
    · have h2 := hf.2
      rw [hfst] at h2
      simpa using h2
  · rintro ⟨a, hmem, hnone⟩
    exact List.mem_map.mpr ⟨(ts, a),
      List.mem_filter.mpr ⟨hmem, by simpa using hnone⟩, rfl⟩

/-- Membership characterization of the `changed` class. -/
theorem mem_classify_changed (tsAnn : List (String × AnnEntry))
    (tsRaw : List (String × RawEntry)) (ts : String) :
    ts ∈ (classifyGo tsAnn tsRaw).2 ↔
      ∃ a r, (ts, a) ∈ tsAnn ∧ dictGet tsRaw ts = some r ∧
        entryChanged a r = true := by
  rw [classifyGo_snd]
  constructor
  · intro h
    obtain ⟨p, hp, hfst⟩ := List.mem_map.mp h
    have hf := List.mem_filter.mp hp
    have h2 := hf.2
    rw [hfst] at h2
    cases hget : dictGet tsRaw ts with
    | none => rw [hget] at h2; simp at h2
    | some r =>
      rw [hget] at h2
      simp only at h2
      refine ⟨p.2, r, ?_, rfl, h2⟩
      rw [← hfst]
      exact hf.1
  · rintro ⟨a, r, hmem, hsome, hch⟩
    exact List.mem_map.mpr ⟨(ts, a),
      List.mem_filter.mpr ⟨hmem, by rw [hsome]; simpa using hch⟩, rfl⟩

/-- Decomposition of a normally-returning `validate` call. -/
theorem validate_ok_spec (flags : Flags) (tsAnn : List (String × AnnEntry))
    (tsRaw : List (String × RawEntry)) (tsAnnIndex : List (String × Nat))
    (store : Store) (vres : ValidateResult)
    (hok : validate flags tsAnn tsRaw tsAnnIndex store = Except.ok vres) :
    ((classifyGo tsAnn tsRaw).1 = [] ∨ flags.delete_missing = true) ∧
    ((classifyGo tsAnn tsRaw).2 = [] ∨ flags.delete_changed = true) ∧
    ∃ indices,
      lookupIndices tsAnnIndex
        ((classifyGo tsAnn tsRaw).1 ++ (classifyGo tsAnn tsRaw).2) = some indices ∧
      vres = { tsToAnnotated :=
                 ((classifyGo tsAnn tsRaw).1 ++ (classifyGo tsAnn tsRaw).2).foldl
                   dictErase tsAnn,
               store := { store with
                 locations := removeDescIndices store.locations indices } } := by
  by_cases hcond : ((classifyGo tsAnn tsRaw).1 ≠ [] ∧ ¬flags.delete_missing = true) ∨
      ((classifyGo tsAnn tsRaw).2 ≠ [] ∧ ¬flags.delete_changed = true)
  · simp only [validate, if_pos hcond] at hok
    cases hok
  · simp only [validate, if_neg hcond] at hok
    push_neg at hcond
    obtain ⟨h1, h2⟩ := hcond
    refine ⟨?_, ?_, ?_⟩
    · by_cases hm : (classifyGo tsAnn tsRaw).1 = []
      · exact Or.inl hm
      · exact Or.inr (by simpa using h1 hm)
    · by_cases hc : (classifyGo tsAnn tsRaw).2 = []
      · exact Or.inl hc
      · exact Or.inr (by simpa using h2 hc)
    · cases hlook : lookupIndices tsAnnIndex
          ((classifyGo tsAnn tsRaw).1 ++ (classifyGo tsAnn tsRaw).2) with
      | none => rw [hlook] at hok; cases hok
      | some indices =>
        rw [hlook] at hok
        exact ⟨indices, rfl, (Except.ok.inj hok).symm⟩

/-- `del` leaves other keys' bindings untouched. -/
theorem dictGet_dictErase_ne {κ α : Type} [DecidableEq κ]
    (d : List (κ × α)) (k k' : κ) (h : k' ≠ k) :
    dictGet (dictErase d k) k' = dictGet d k' := by
  induction d with
  | nil => rfl
  | cons p d ih =>
    by_cases hp : p.1 = k
    · rw [dictErase, if_pos hp, dictGet_cons, if_neg (by rw [hp]; exact fun hh => h hh.symm)]
    · rw [dictErase, if_neg hp, dictGet_cons, dictGet_cons, ih]

/-- Erasing preserves the no-duplicate-keys invariant. -/
theorem dictKeys_dictErase_nodup {κ α : Type} [DecidableEq κ]
    (d : List (κ × α)) (k : κ) (hnd : (dictKeys d).Nodup) :
    (dictKeys (dictErase d k)).Nodup := by
  rw [dictErase_eq_filter d k hnd]
  simp only [dictKeys] at hnd ⊢
  exact ((List.filter_sublist d).map Prod.fst).nodup hnd

/-- Folding `del` over a key list is filtering those keys out (dict
invariant). -/
theorem foldl_dictErase_eq_filter {α : Type} (L : List String)
    (d : List (String × α)) (hnd : (dictKeys d).Nodup) :
    L.foldl dictErase d = d.filter (fun p => decide (p.1 ∉ L)) := by
  induction L generalizing d with
  | nil => simp
  | cons k L' ih =>
    rw [List.foldl_cons, ih (dictErase d k) (dictKeys_dictErase_nodup d k hnd)]
    rw [dictErase_eq_filter d k hnd]
    rw [List.filter_filter]
    apply List.filter_congr
    intro p _
    by_cases h1 : p.1 = k
    · simp [h1]
    · by_cases h2 : p.1 ∈ L' <;> simp [h1, h2]

/-- `trim` succeeds and computes the pending set whenever every annotated
key is a raw key. -/
theorem trim_ok_of_subset (tsAnn' : List (String × AnnEntry))
    (tsRaw : List (String × RawEntry))
    (hndA : (dictKeys tsAnn').Nodup) (hndR : (dictKeys tsRaw).Nodup)
    (hsub : ∀ p ∈ tsAnn', (dictGet tsRaw p.1).isSome = true) :
    trim tsAnn' tsRaw =
      Except.ok (tsRaw.filter (fun p => decide (dictGet tsAnn' p.1 = none))) := by
  induction tsAnn' generalizing tsRaw with
  | nil =>
    rw [trim]
    rw [List.filter_eq_self.mpr]
    intro p _
    simp
  | cons q rest ih =>
    obtain ⟨ts, a⟩ := q
    simp only [dictKeys, List.map_cons, List.nodup_cons] at hndA
    rw [trim]
    rw [if_pos (hsub (ts, a) (List.mem_cons_self _ _))]
    rw [ih (dictErase tsRaw ts) hndA.2 (dictKeys_dictErase_nodup tsRaw ts hndR) ?side]
    case side =>
      intro p hp
      have hne : p.1 ≠ ts := by
        intro hh
        exact hndA.1 (hh ▸ List.mem_map_of_mem Prod.fst hp)
      rw [dictGet_dictErase_ne tsRaw ts p.1 hne]
      exact hsub p (List.mem_cons_of_mem _ hp)
    rw [dictErase_eq_filter tsRaw ts hndR, List.filter_filter]
    congr 1
    apply List.filter_congr
    intro p _
    by_cases h1 : ts = p.1
    · simp [dictGet_cons, h1]
    · have h1' : ¬p.1 = ts := fun hh => h1 hh.symm
      by_cases h2 : dictGet rest p.1 = none <;>
        simp [dictGet_cons, h1, h1', h2]

/-- After any normally-returning `validate`, every remaining annotated key
is a raw key and `trim` computes the pending set (shared core of C9). -/
theorem validate_ok_trim (flags : Flags) (tsAnn : List (String × AnnEntry))
    (tsRaw : List (String × RawEntry)) (tsAnnIndex : List (String × Nat))
    (store : Store) (vres : ValidateResult)
    (hndA : (dictKeys tsAnn).Nodup) (hndR : (dictKeys tsRaw).Nodup)
    (hok : validate flags tsAnn tsRaw tsAnnIndex store = Except.ok vres) :
    (∀ p ∈ vres.tsToAnnotated, (dictGet tsRaw p.1).isSome = true) ∧
    trim vres.tsToAnnotated tsRaw =
      Except.ok (tsRaw.filter
        (fun p => decide (dictGet vres.tsToAnnotated p.1 = none))) := by
  obtain ⟨hm, hc, indices, hlook, hv⟩ :=
    validate_ok_spec flags tsAnn tsRaw tsAnnIndex store vres hok
  have hann' : vres.tsToAnnotated =
      tsAnn.filter (fun p =>
        decide (p.1 ∉ (classifyGo tsAnn tsRaw).1 ++ (classifyGo tsAnn tsRaw).2)) := by
    rw [hv]
    exact foldl_dictErase_eq_filter _ tsAnn hndA
  have hsub : ∀ p ∈ vres.tsToAnnotated, (dictGet tsRaw p.1).isSome = true := by
    intro p hp
    rw [hann'] at hp
    have hf := List.mem_filter.mp hp
    have hnotin : p.1 ∉ (classifyGo tsAnn tsRaw).1 ++ (classifyGo tsAnn tsRaw).2 := by
      simpa using hf.2
    cases hget : dictGet tsRaw p.1 with
    | some r => rfl
    | none =>
      exfalso
      apply hnotin
      apply List.mem_append_left
      exact (mem_classify_missing tsAnn tsRaw p.1).mpr
        ⟨p.2, by simpa using hf.1, hget⟩
  have hndA' : (dictKeys vres.tsToAnnotated).Nodup := by
    rw [hann']
    exact ((List.filter_sublist tsAnn).map Prod.fst).nodup hndA
  exact ⟨hsub, trim_ok_of_subset vres.tsToAnnotated tsRaw hndA' hndR hsub⟩

/-- C9: whenever `validate` returns (any policy), every timestamp still in
the annotated dict is a raw key, so each `del ts_to_raw[ts]` in `trim` is
defined (no `KeyError`), and the pending set after `trim` is exactly the
raw entries with no existing annotation. -/
theorem c9_trim_safety (flags : Flags) (tsAnn : List (String × AnnEntry))
    (tsRaw : List (String × RawEntry)) (tsAnnIndex : List (String × Nat))
    (store : Store) (vres : ValidateResult)
    (hndA : (dictKeys tsAnn).Nodup) (hndR : (dictKeys tsRaw).Nodup)
    (hok : validate flags tsAnn tsRaw tsAnnIndex store = Except.ok vres) :
    (∀ p ∈ vres.tsToAnnotated, (dictGet tsRaw p.1).isSome = true) ∧
    trim vres.tsToAnnotated tsRaw =
      Except.ok (tsRaw.filter
        (fun p => decide (dictGet vres.tsToAnnotated p.1 = none))) :=
  validate_ok_trim flags tsAnn tsRaw tsAnnIndex store vres hndA hndR hok

/-- A consistent annotated entry and its raw counterpart, plus one new raw
point (shared example data for witnesses). -/
def exAnn1 : AnnEntry :=
  { timestamp := "t1", latitudeE7 := 1, longitudeE7 := 2, accuracy := 3,
    state := "NY" }

/-- Raw counterpart of `exAnn1`. -/
def exRaw1 : RawEntry :=
  { timestamp := "t1", latitudeE7 := 1, longitudeE7 := 2, accuracy := 3 }

/-- A second, not yet annotated raw point. -/
def exRaw2 : RawEntry :=
  { timestamp := "t2", latitudeE7 := 4, longitudeE7 := 5, accuracy := 6 }

/-- Default command line: no flags, no limit. -/
def exFlagsDefault : Flags :=
  { geocoder := none, email := none, limit := none, delete_changed := false,
    delete_missing := false }

/-- The validate result for a consistent one-point store. -/
def exVres : ValidateResult :=
  { tsToAnnotated := [("t1", exAnn1)],
    store := { geocoder := some "local", locations := [exAnn1] } }

/-- Witness for C9: one already-annotated point consistent with raw, one new
raw point; `validate` keeps the annotation and `trim` leaves exactly the new
point pending. -/
theorem c9_trim_safety_witness :
    (∀ p ∈ exVres.tsToAnnotated,
      (dictGet [("t1", exRaw1), ("t2", exRaw2)] p.1).isSome = true) ∧
    trim exVres.tsToAnnotated [("t1", exRaw1), ("t2", exRaw2)] =
      Except.ok ([("t1", exRaw1), ("t2", exRaw2)].filter
        (fun p => decide (dictGet exVres.tsToAnnotated p.1 = none))) :=
  c9_trim_safety exFlagsDefault [("t1", exAnn1)] [("t1", exRaw1), ("t2", exRaw2)]
    [("t1", 0)] { geocoder := some "local", locations := [exAnn1] } exVres
    (by decide) (by decide) (by rfl)

end Geo

namespace Geo

/-! ## Claim C8: positional deletion machinery -/

/-- Keep the elements whose position (counting from `i`) satisfies `p`. -/
def filterIdxGo {α : Type} (p : Nat → Bool) : Nat → List α → List α
  | _, [] => []
  | i, x :: l =>
      if p i then x :: filterIdxGo p (i + 1) l else filterIdxGo p (i + 1) l

/-- Keep the elements whose position satisfies `p`. -/
def filterIdx {α : Type} (p : Nat → Bool) (l : List α) : List α := filterIdxGo p 0 l

theorem filterIdxGo_append {α : Type} (p : Nat → Bool) (xs : List α) (n : Nat)
    (ys : List α) :
    filterIdxGo p n (xs ++ ys) = filterIdxGo p n xs ++ filterIdxGo p (n + xs.length) ys := by
  induction xs generalizing n with
  | nil => simp [filterIdxGo]
  | cons x xs ih =>
    rw [List.cons_append, filterIdxGo, filterIdxGo, ih (n + 1)]
    by_cases h : p n <;> simp [h, Nat.add_assoc, Nat.add_comm 1 xs.length]

theorem filterIdxGo_congr {α : Type} (p q : Nat → Bool) (xs : List α) (n : Nat)
    (h : ∀ m, n ≤ m → m < n + xs.length → p m = q m) :
    filterIdxGo p n xs = filterIdxGo q n xs := by
  induction xs generalizing n with
  | nil => rfl
  | cons x xs ih =>
    rw [filterIdxGo, filterIdxGo]
    rw [h n (Nat.le_refl n) (by simp only [List.length_cons]; omega)]
    rw [ih (n + 1) (fun m hm1 hm2 => h m (by omega) (by simp at hm2 ⊢; omega))]

theorem filterIdxGo_all_true {α : Type} (p : Nat → Bool) (xs : List α) (n : Nat)
    (h : ∀ m, n ≤ m → p m = true) :
    filterIdxGo p n xs = xs := by
  induction xs generalizing n with
  | nil => rfl
  | cons x xs ih =>
    rw [filterIdxGo, if_pos (h n (Nat.le_refl n)), ih (n + 1) (fun m hm => h m (by omega))]

theorem filterIdxGo_elem {α : Type} (p : Nat → Bool) (f : α → Bool) (xs : List α)
    (n : Nat) (h : ∀ i (hi : i < xs.length), p (n + i) = f (xs.get ⟨i, hi⟩)) :
    filterIdxGo p n xs = xs.filter f := by
  induction xs generalizing n with
  | nil => rfl
  | cons x xs ih =>
    rw [filterIdxGo, List.filter_cons]
    have h0 : p n = f x := by simpa using h 0 (by simp)
    have ih' : filterIdxGo p (n + 1) xs = xs.filter f := by
      apply ih (n + 1)
      intro i hi
      have := h (i + 1) (by simpa using Nat.succ_lt_succ hi)
      simpa [Nat.add_assoc, Nat.add_comm 1 i] using this
    by_cases hx : f x = true
    · rw [if_pos (h0.trans hx), if_pos hx, ih']
    · rw [if_neg (by rw [h0]; exact hx), if_neg hx, ih']

/-- Deleting index `i` and then filtering out smaller indices is filtering
out `i :: rest` positionally. -/
theorem eraseIdx_filterIdx {α : Type} (l : List α) (i : Nat) (rest : List Nat)
    (hlt : ∀ j ∈ rest, j < i) :
    filterIdx (fun m => decide (m ∉ rest)) (l.eraseIdx i) =
      filterIdx (fun m => decide (m ∉ i :: rest)) l := by
  by_cases hi : i < l.length
  · have hsplit : l = l.take i ++ l.get ⟨i, hi⟩ :: l.drop (i + 1) := by
      conv_lhs => rw [← List.take_append_drop i l]
      congr 1
      exact List.drop_eq_get_cons hi
    rw [List.eraseIdx_eq_take_drop_succ]
    rw [filterIdx, filterIdxGo_append]
    rw [filterIdx]
    conv_rhs => rw [hsplit]
    rw [filterIdxGo_append]
    have hlen_take : (l.take i).length = i := by
      rw [List.length_take]
      omega
    congr 1
    · apply filterIdxGo_congr
      intro m hm1 hm2
      rw [hlen_take] at hm2
      simp only [Nat.zero_add] at hm2
      have : m ≠ i := by omega
      simp [List.mem_cons, this]
    · rw [hlen_take]
      rw [filterIdxGo_all_true (fun m => decide (m ∉ rest)) _ (0 + i)
        (fun m hm => by
          simp only [decide_eq_true_eq]
          intro hmem
          exact absurd (hlt m hmem) (by omega))]
      rw [filterIdxGo]
      rw [if_neg (by simp)]
      rw [filterIdxGo_all_true (fun m => decide (m ∉ i :: rest)) _ (0 + i + 1)
        (fun m hm => by
          simp only [decide_eq_true_eq, List.mem_cons]
          rintro (rfl | hmem)
          · omega
          · exact absurd (hlt m hmem) (by omega))]
  · have hself : l.eraseIdx i = l := by
      rw [List.eraseIdx_eq_take_drop_succ]
      rw [List.take_of_length_le (by omega), List.drop_eq_nil_of_le (by omega)]
      simp
    rw [hself, filterIdx, filterIdx]
    apply filterIdxGo_congr
    intro m hm1 hm2
    simp only [Nat.zero_add] at hm2
    have : m ≠ i := by omega
    simp [List.mem_cons, this]

/-- Deleting a strictly descending index list one by one deletes exactly
those positions. -/
theorem foldl_eraseIdx_pairwise {α : Type} (idxs : List Nat) (l : List α)
    (h : idxs.Pairwise (· > ·)) :
    idxs.foldl (fun acc i => acc.eraseIdx i) l =
      filterIdx (fun m => decide (m ∉ idxs)) l := by
  induction idxs generalizing l with
  | nil =>
    rw [List.foldl_nil, filterIdx, filterIdxGo_all_true]
    intro m _
    simp
  | cons i rest ih =>
    rw [List.foldl_cons]
    rw [ih (l.eraseIdx i) h.of_cons]
    exact eraseIdx_filterIdx l i rest (fun j hj => List.rel_of_pairwise_cons h hj)

theorem mem_insertDesc (i : Nat) (l : List Nat) (m : Nat) :
    m ∈ insertDesc i l ↔ m = i ∨ m ∈ l := by
  induction l with
  | nil => simp [insertDesc]
  | cons j rest ih =>
    rw [insertDesc]
    by_cases h : j ≤ i
    · simp [h]
    · rw [if_neg h]
      simp [ih]
      tauto

theorem mem_sortDesc (l : List Nat) (m : Nat) : m ∈ sortDesc l ↔ m ∈ l := by
  induction l with
  | nil => simp [sortDesc]
  | cons i rest ih =>
    rw [sortDesc, List.foldr_cons, mem_insertDesc]
    rw [sortDesc] at ih
    simp [ih]

theorem insertDesc_sorted (i : Nat) (l : List Nat)
    (h : l.Pairwise (· ≥ ·)) : (insertDesc i l).Pairwise (· ≥ ·) := by
  induction l with
  | nil => simp [insertDesc]
  | cons j rest ih =>
    rw [insertDesc]
    by_cases hj : j ≤ i
    · rw [if_pos hj]
      rw [List.pairwise_cons]
      refine ⟨?_, h⟩
      intro m hm
      rcases List.mem_cons.mp hm with rfl | hm'
      · exact hj
      · exact le_trans (List.rel_of_pairwise_cons h hm') hj
    · rw [if_neg hj]
      rw [List.pairwise_cons] at h ⊢
      refine ⟨?_, ih h.2⟩
      intro m hm
      rcases (mem_insertDesc i rest m).mp hm with rfl | hm'
      · omega
      · exact h.1 m hm'

theorem sortDesc_sorted (l : List Nat) : (sortDesc l).Pairwise (· ≥ ·) := by
  induction l with
  | nil => simp [sortDesc]
  | cons i rest ih => exact insertDesc_sorted i (sortDesc rest) ih

theorem insertDesc_nodup (i : Nat) (l : List Nat) (hl : l.Nodup) (hi : i ∉ l) :
    (insertDesc i l).Nodup := by
  induction l with
  | nil => simp [insertDesc]
  | cons j s ih =>
    rw [List.nodup_cons] at hl
    have hij : ¬ i = j := fun hh => hi (hh ▸ List.mem_cons_self j s)
    rw [insertDesc]
    by_cases hj : j ≤ i
    · rw [if_pos hj, List.nodup_cons]
      refine ⟨?_, List.nodup_cons.mpr hl⟩
      intro hmem
      rcases List.mem_cons.mp hmem with hh | hm
      · exact hij hh
      · exact hi (List.mem_cons_of_mem j hm)
    · rw [if_neg hj, List.nodup_cons]
      refine ⟨?_, ih hl.2 (fun hm => hi (List.mem_cons_of_mem j hm))⟩
      intro hmem
      rcases (mem_insertDesc i s j).mp hmem with hh | hm
      · exact hij hh.symm
      · exact hl.1 hm

theorem sortDesc_nodup (l : List Nat) (h : l.Nodup) : (sortDesc l).Nodup := by
  induction l with
  | nil => simp [sortDesc]
  | cons i rest ih =>
    rw [List.nodup_cons] at h
    rw [sortDesc, List.foldr_cons]
    exact insertDesc_nodup i (sortDesc rest) (ih h.2)
      (fun hm => h.1 ((mem_sortDesc rest i).mp hm))

end Geo

namespace Geo

theorem keyIndex_shift {α : Type} (key : α → String) (ts : String) (l : List α)
    (i : Nat) :
    keyIndex key ts i l = (keyIndex key ts 0 l).map (fun j => j + i) := by
  induction l generalizing i with
  | nil => rfl
  | cons e rest ih =>
    rw [keyIndex, keyIndex]
    by_cases h : key e = ts
    · simp [h]
    · rw [if_neg h, if_neg h, ih (i + 1), ih 1]
      cases keyIndex key ts 0 rest with
      | none => rfl
      | some j =>
        simp only [Option.map_some', Option.map_map, Function.comp]
        congr 1
        omega

theorem keyIndex_some_spec {α : Type} (key : α → String) (ts : String) (l : List α)
    (n : Nat) (h : keyIndex key ts 0 l = some n) :
    ∃ hn : n < l.length, key (l.get ⟨n, hn⟩) = ts := by
  induction l generalizing n with
  | nil => simp [keyIndex] at h
  | cons e rest ih =>
    rw [keyIndex] at h
    by_cases he : key e = ts
    · rw [if_pos he] at h
      obtain rfl : (0 : Nat) = n := Option.some.inj h
      exact ⟨by simp, he⟩
    · rw [if_neg he, keyIndex_shift key ts rest 1] at h
      cases hk : keyIndex key ts 0 rest with
      | none => rw [hk] at h; cases h
      | some m =>
        rw [hk] at h
        simp only [Option.map_some'] at h
        obtain rfl : m + 1 = n := Option.some.inj h
        obtain ⟨hm, hkey⟩ := ih m hk
        refine ⟨by simpa using Nat.succ_lt_succ hm, ?_⟩
        simpa using hkey

theorem keyIndex_of_get {α : Type} (key : α → String) (l : List α)
    (hnd : (l.map key).Nodup) (n : Nat) (hn : n < l.length) :
    keyIndex key (key (l.get ⟨n, hn⟩)) 0 l = some n := by
  induction l generalizing n with
  | nil => simp at hn
  | cons e rest ih =>
    simp only [List.map_cons, List.nodup_cons] at hnd
    cases n with
    | zero =>
      have h0 : (e :: rest).get ⟨0, hn⟩ = e := rfl
      rw [h0, keyIndex, if_pos rfl]
    | succ m =>
      have hm : m < rest.length := by simpa using hn
      have hget : (e :: rest).get ⟨m + 1, hn⟩ = rest.get ⟨m, hm⟩ := rfl
      rw [hget, keyIndex]
      rw [if_neg ?hne]
      case hne =>
        intro hh
        exact hnd.1 (hh.symm ▸ List.mem_map_of_mem key (rest.get_mem m hm))
      rw [keyIndex_shift key _ rest 1, ih hnd.2 m hm]
      rfl

theorem lookupIndices_eq_map (tsIdx : List (String × Nat)) (L : List String)
    (h : ∀ ts ∈ L, (dictGet tsIdx ts).isSome = true) :
    lookupIndices tsIdx L =
      some (L.map (fun ts => (dictGet tsIdx ts).getD 0)) := by
  induction L with
  | nil => rfl
  | cons ts L' ih =>
    rw [lookupIndices]
    cases hget : dictGet tsIdx ts with
    | none => exact absurd (h ts (List.mem_cons_self _ _)) (by simp [hget])
    | some i =>
      rw [ih (fun t ht => h t (List.mem_cons_of_mem ts ht))]
      simp [hget]

theorem pairwise_gt_of_sorted_nodup (l : List Nat) (hs : l.Pairwise (· ≥ ·))
    (hn : l.Nodup) : l.Pairwise (· > ·) := by
  have hand := hs.and hn
  exact hand.imp (fun hab => by omega)

/-- The flagged (missing ++ changed) timestamps of a keyed store: every one
is a key of the store, and the list has no duplicates. -/
theorem classify_flagged_facts (tsRaw : List (String × RawEntry))
    (locs : List AnnEntry) (key : AnnEntry → String)
    (hnd : (locs.map key).Nodup) :
    (∀ ts ∈ (classifyGo (keyedList key locs) tsRaw).1 ++
        (classifyGo (keyedList key locs) tsRaw).2,
      ∃ a, (ts, a) ∈ keyedList key locs) ∧
    ((classifyGo (keyedList key locs) tsRaw).1 ++
      (classifyGo (keyedList key locs) tsRaw).2).Nodup := by
  have hkeys_nodup : (dictKeys (keyedList key locs)).Nodup := by
    rw [dictKeys_keyedList]
    exact hnd
  constructor
  · intro ts hts
    rcases List.mem_append.mp hts with hm | hc
    · obtain ⟨a, hmem, _⟩ := (mem_classify_missing _ tsRaw ts).mp hm
      exact ⟨a, hmem⟩
    · obtain ⟨a, r, hmem, _, _⟩ := (mem_classify_changed _ tsRaw ts).mp hc
      exact ⟨a, hmem⟩
  · have hm_nodup : (classifyGo (keyedList key locs) tsRaw).1.Nodup := by
      rw [classifyGo_fst]
      exact (((List.filter_sublist _).map Prod.fst).nodup) hkeys_nodup
    have hc_nodup : (classifyGo (keyedList key locs) tsRaw).2.Nodup := by
      rw [classifyGo_snd]
      exact (((List.filter_sublist _).map Prod.fst).nodup) hkeys_nodup
    have hdisj : (classifyGo (keyedList key locs) tsRaw).1.Disjoint
        (classifyGo (keyedList key locs) tsRaw).2 := by
      intro ts h1 h2
      obtain ⟨a, _, hnone⟩ := (mem_classify_missing _ tsRaw ts).mp h1
      obtain ⟨a', r, _, hsome, _⟩ := (mem_classify_changed _ tsRaw ts).mp h2
      rw [hnone] at hsome
      cases hsome
    exact hm_nodup.append hc_nodup hdisj

/-- A timestamp that keys a store entry resolves through the index dict to
the entry's (unique) position. -/
theorem indexList_lookup_spec (locs : List AnnEntry) (key : AnnEntry → String)
    (hnd : (locs.map key).Nodup) (ts : String)
    (hmem : ∃ a, (ts, a) ∈ keyedList key locs) :
    ∃ n, dictGet (indexList key 0 locs) ts = some n ∧
      ∃ hn : n < locs.length, key (locs.get ⟨n, hn⟩) = ts := by
  obtain ⟨a, hmem⟩ := hmem
  rw [keyedList, List.mem_map] at hmem
  obtain ⟨e, he, heq⟩ := hmem
  have hts_eq : key e = ts := congrArg Prod.fst heq
  obtain ⟨n, hget⟩ := List.mem_iff_get.mp he
  refine ⟨n.1, ?_, ?_⟩
  · rw [dictGet_indexList, ← hts_eq, ← hget]
    exact keyIndex_of_get key locs hnd n.1 n.2
  · exact ⟨n.2, by rw [← hget] at hts_eq; exact hts_eq⟩

/-- Deleting — by descending original index — the positions looked up for a
duplicate-free list of store keys removes exactly the entries with those
keys, keeping the rest in order. -/
theorem removeDesc_lookup_filter (locs : List AnnEntry) (key : AnnEntry → String)
    (hnd : (locs.map key).Nodup) (flagged : List String)
    (hmem : ∀ ts ∈ flagged, ∃ a, (ts, a) ∈ keyedList key locs)
    (hfnd : flagged.Nodup) :
    removeDescIndices locs
        (flagged.map (fun ts => (dictGet (indexList key 0 locs) ts).getD 0)) =
      locs.filter (fun e => decide (key e ∉ flagged)) := by
  have hflag_idx : ∀ ts ∈ flagged, ∃ n, dictGet (indexList key 0 locs) ts = some n ∧
      ∃ hn : n < locs.length, key (locs.get ⟨n, hn⟩) = ts :=
    fun ts hts => indexList_lookup_spec locs key hnd ts (hmem ts hts)
  have hidx_mem : ∀ m, m ∈ (flagged.map
        (fun ts => (dictGet (indexList key 0 locs) ts).getD 0)) ↔
      ∃ hm : m < locs.length, key (locs.get ⟨m, hm⟩) ∈ flagged := by
    intro m
    constructor
    · intro hmm
      rw [List.mem_map] at hmm
      obtain ⟨ts, hts, hval⟩ := hmm
      obtain ⟨n, hget, hn, hkey⟩ := hflag_idx ts hts
      rw [hget] at hval
      simp only [Option.getD_some] at hval
      subst hval
      exact ⟨hn, by rw [hkey]; exact hts⟩
    · rintro ⟨hm, hkey⟩
      rw [List.mem_map]
      refine ⟨key (locs.get ⟨m, hm⟩), hkey, ?_⟩
      rw [dictGet_indexList, keyIndex_of_get key locs hnd m hm]
      rfl
  have hidx_nodup : (flagged.map
      (fun ts => (dictGet (indexList key 0 locs) ts).getD 0)).Nodup := by
    apply List.Nodup.map_on ?inj hfnd
    case inj =>
      intro ts1 h1 ts2 h2 heq
      obtain ⟨n1, hget1, hn1, hkey1⟩ := hflag_idx ts1 h1
      obtain ⟨n2, hget2, hn2, hkey2⟩ := hflag_idx ts2 h2
      rw [hget1, hget2] at heq
      simp only [Option.getD_some] at heq
      subst heq
      rw [← hkey1, ← hkey2]
  rw [removeDescIndices]
  rw [foldl_eraseIdx_pairwise _ locs
    (pairwise_gt_of_sorted_nodup _ (sortDesc_sorted _) (sortDesc_nodup _ hidx_nodup))]
  rw [filterIdx]
  rw [filterIdxGo_congr _
    (fun m => decide (m ∉ (flagged.map
      (fun ts => (dictGet (indexList key 0 locs) ts).getD 0)))) locs 0
    (fun m _ _ => by simp [mem_sortDesc])]
  apply filterIdxGo_elem
  intro i hi
  simp only [Nat.zero_add]
  rw [decide_eq_decide, not_iff_not]
  constructor
  · intro hmm
    obtain ⟨hm, hkmem⟩ := (hidx_mem i).mp hmm
    exact hkmem
  · intro hkmem
    exact (hidx_mem i).mpr ⟨hi, hkmem⟩

/-- Every timestamp flagged for a keyed store resolves in its index dict. -/
theorem flagged_lookup_isSome (locs : List AnnEntry) (key : AnnEntry → String)
    (hnd : (locs.map key).Nodup) (flagged : List String)
    (hmem : ∀ ts ∈ flagged, ∃ a, (ts, a) ∈ keyedList key locs) :
    ∀ ts ∈ flagged, (dictGet (indexList key 0 locs) ts).isSome = true := by
  intro ts hts
  obtain ⟨n, hget, _⟩ := indexList_lookup_spec locs key hnd ts (hmem ts hts)
  simp [hget]

/-- Characterization of a normally-returning `validate` on a keyed store:
the surviving annotated dict and location list are the non-flagged
entries, in order. -/
theorem validate_ok_locations_filter (flags : Flags)
    (tsRaw : List (String × RawEntry)) (store : Store) (key : AnnEntry → String)
    (hnd : (store.locations.map key).Nodup) (vres : ValidateResult)
    (hok : validate flags (keyedList key store.locations) tsRaw
        (indexList key 0 store.locations) store = Except.ok vres) :
    vres.tsToAnnotated = (keyedList key store.locations).filter (fun p =>
      decide (p.1 ∉ (classifyGo (keyedList key store.locations) tsRaw).1 ++
        (classifyGo (keyedList key store.locations) tsRaw).2)) ∧
    vres.store = { store with locations := store.locations.filter (fun e =>
      decide (key e ∉ (classifyGo (keyedList key store.locations) tsRaw).1 ++
        (classifyGo (keyedList key store.locations) tsRaw).2)) } := by
  obtain ⟨hm, hc, indices, hlook, hv⟩ :=
    validate_ok_spec flags _ _ _ store vres hok
  obtain ⟨hfm, hfnd⟩ := classify_flagged_facts tsRaw store.locations key hnd
  have hlook2 := lookupIndices_eq_map (indexList key 0 store.locations)
    ((classifyGo (keyedList key store.locations) tsRaw).1 ++
     (classifyGo (keyedList key store.locations) tsRaw).2)
    (flagged_lookup_isSome store.locations key hnd _ hfm)
  rw [hlook2] at hlook
  obtain rfl := Option.some.inj hlook
  constructor
  · rw [hv]
    show ((classifyGo (keyedList key store.locations) tsRaw).1 ++
        (classifyGo (keyedList key store.locations) tsRaw).2).foldl dictErase
          (keyedList key store.locations) = _
    rw [foldl_dictErase_eq_filter _ _ (by rw [dictKeys_keyedList]; exact hnd)]
  · rw [hv]
    show Store.mk store.geocoder (removeDescIndices store.locations _) = _
    rw [removeDesc_lookup_filter store.locations key hnd _ hfm hfnd]

/-- Core of C8, stated on the explicit keyed/index dicts of a store whose
parsed timestamps are distinct. -/
theorem validate_repair_filter (flags : Flags) (tsRaw : List (String × RawEntry))
    (store : Store) (key : AnnEntry → String)
    (hdm : flags.delete_missing = true) (hdc : flags.delete_changed = true)
    (hnd : (store.locations.map key).Nodup) :
    ∃ vres, validate flags (keyedList key store.locations) tsRaw
        (indexList key 0 store.locations) store = Except.ok vres ∧
      vres.store.locations = store.locations.filter (fun e =>
        decide (key e ∉
          (classifyGo (keyedList key store.locations) tsRaw).1 ++
          (classifyGo (keyedList key store.locations) tsRaw).2)) := by
  obtain ⟨hfm, hfnd⟩ := classify_flagged_facts tsRaw store.locations key hnd
  have hlook := lookupIndices_eq_map (indexList key 0 store.locations)
    ((classifyGo (keyedList key store.locations) tsRaw).1 ++
     (classifyGo (keyedList key store.locations) tsRaw).2)
    (flagged_lookup_isSome store.locations key hnd _ hfm)
  have hcond : ¬(((classifyGo (keyedList key store.locations) tsRaw).1 ≠ [] ∧
      ¬flags.delete_missing = true) ∨
      ((classifyGo (keyedList key store.locations) tsRaw).2 ≠ [] ∧
      ¬flags.delete_changed = true)) := by
    rw [hdm, hdc]
    simp
  have hok : validate flags (keyedList key store.locations) tsRaw
      (indexList key 0 store.locations) store =
      Except.ok (ValidateResult.mk
        (((classifyGo (keyedList key store.locations) tsRaw).1 ++
          (classifyGo (keyedList key store.locations) tsRaw).2).foldl dictErase
            (keyedList key store.locations))
        (Store.mk store.geocoder
          (removeDescIndices store.locations
            (((classifyGo (keyedList key store.locations) tsRaw).1 ++
              (classifyGo (keyedList key store.locations) tsRaw).2).map
                (fun ts => (dictGet (indexList key 0 store.locations) ts).getD 0))))) := by
    simp only [validate, if_neg hcond]
    rw [hlook]
  refine ⟨_, hok, ?_⟩
  have h2 := (validate_ok_locations_filter flags tsRaw store key hnd _ hok).2
  rw [h2]

/-- C8: with both opt-in delete flags set, `validate` never exits; it removes
from the positional `locations` list precisely the entries whose (parsed)
timestamp was flagged missing or changed, by deleting descending original
indices, so the non-flagged entries survive in their original relative
order (a positional filter). -/
theorem c8_repair_removes_flagged (flags : Flags) (tsRaw : List (String × RawEntry))
    (store : Store) (key : AnnEntry → String)
    (hdm : flags.delete_missing = true) (hdc : flags.delete_changed = true)
    (hnd : (store.locations.map key).Nodup) :
    ∃ vres, validate flags (map_by_timestamp key store.locations).1 tsRaw
        (map_by_timestamp key store.locations).2 store = Except.ok vres ∧
      vres.store.locations = store.locations.filter (fun e =>
        decide (key e ∉
          (classifyGo (map_by_timestamp key store.locations).1 tsRaw).1 ++
          (classifyGo (map_by_timestamp key store.locations).1 tsRaw).2)) := by
  have hmaps := map_by_timestamp_eq_of_nodup key store.locations hnd
  rw [hmaps]
  exact validate_repair_filter flags tsRaw store key hdm hdc hnd

end Geo

namespace Geo

/-- Repair-mode command line: both opt-in delete flags set. -/
def exFlagsRepair : Flags :=
  { geocoder := none, email := none, limit := none, delete_changed := true,
    delete_missing := true }

/-- A store with one consistent, one changed and one missing entry. -/
def exStoreRepair : Store :=
  { geocoder := some "local",
    locations :=
      [{ timestamp := "t1", latitudeE7 := 1, longitudeE7 := 2, accuracy := 3, state := "NY" },
       { timestamp := "t2", latitudeE7 := 4, longitudeE7 := 5, accuracy := 6, state := "CA" },
       { timestamp := "t3", latitudeE7 := 7, longitudeE7 := 8, accuracy := 9, state := "TX" }] }

/-- Raw dict for `exStoreRepair`: `t1` identical, `t2` with a different
accuracy, `t3` absent. -/
def exRawRepair : List (String × RawEntry) :=
  [("t1", { timestamp := "t1", latitudeE7 := 1, longitudeE7 := 2, accuracy := 3 }),
   ("t2", { timestamp := "t2", latitudeE7 := 4, longitudeE7 := 5, accuracy := 99 })]

/-- The expected repair result for `exStoreRepair` against `exRawRepair`:
only the consistent `t1` entry survives. -/
def exVresRepair : ValidateResult :=
  { tsToAnnotated :=
      [("t1", { timestamp := "t1", latitudeE7 := 1, longitudeE7 := 2,
                accuracy := 3, state := "NY" })],
    store :=
      { geocoder := some "local",
        locations :=
          [{ timestamp := "t1", latitudeE7 := 1, longitudeE7 := 2,
             accuracy := 3, state := "NY" }] } }

/-- Witness for C8: repair deletes the changed (`t2`, index 1) and missing
(`t3`, index 2) entries in descending index order; the consistent `t1`
survives. -/
theorem c8_repair_removes_flagged_witness :
    validate exFlagsRepair
        (map_by_timestamp AnnEntry.timestamp exStoreRepair.locations).1 exRawRepair
        (map_by_timestamp AnnEntry.timestamp exStoreRepair.locations).2 exStoreRepair =
      Except.ok exVresRepair ∧
    exVresRepair.store.locations =
      exStoreRepair.locations.filter (fun e =>
        decide (AnnEntry.timestamp e ∉
          (classifyGo (map_by_timestamp AnnEntry.timestamp exStoreRepair.locations).1
            exRawRepair).1 ++
          (classifyGo (map_by_timestamp AnnEntry.timestamp exStoreRepair.locations).1
            exRawRepair).2)) := by
  obtain ⟨vres, hok, hfil⟩ := c8_repair_removes_flagged exFlagsRepair exRawRepair
    exStoreRepair AnnEntry.timestamp rfl rfl (by decide)
  have hv : vres = exVresRepair := by
    apply Except.ok.inj (ε := ValidateExit)
    rw [← hok]
    rfl
  rw [hv] at hok hfil
  exact ⟨hok, hfil⟩

end Geo

namespace Geo

/-! ## Claim C7 -/

/-- A store tagged `local` holding one entry `t0` that is absent from the
raw data used in the C7 counterexample. -/
def exStoreTagged : Store :=
  { geocoder := some "local",
    locations := [{ timestamp := "t0", latitudeE7 := 5, longitudeE7 := 6,
                    accuracy := 7, state := "NY" }] }

/-- Command line requesting the other backend, with both repair flags. -/
def exFlagsOsmRepair : Flags :=
  { geocoder := some "osm", email := none, limit := none,
    delete_changed := true, delete_missing := true }

/-- Command line requesting the other backend, default policy. -/
def exFlagsOsmDefault : Flags :=
  { geocoder := some "osm", email := none, limit := none,
    delete_changed := false, delete_missing := false }

/-- C7 as stated is false: with the opt-in repair flags, the run does fail
before any geocoding, but `validate` has already deleted the inconsistent
entry from the in-memory location list when the configuration error fires
(first two conjuncts); and under the default policy an inconsistency makes
the run abort with the consistency diagnostic, not the configuration error
(third conjunct). -/
theorem c7_counterexample :
    pipeline exFlagsOsmRepair (fun _ => []) (fun s => s)
        [{ timestamp := "t1", latitudeE7 := 1, longitudeE7 := 2, accuracy := 3 }]
        exStoreTagged =
      Except.error (ExitKind.configMismatch,
        { geocoder := some "local", locations := [] }) ∧
    ({ geocoder := some "local", locations := [] } : Store) ≠ exStoreTagged ∧
    pipeline exFlagsOsmDefault (fun _ => []) (fun s => s)
        [{ timestamp := "t1", latitudeE7 := 1, longitudeE7 := 2, accuracy := 3 }]
        exStoreTagged =
      Except.error (ExitKind.validateExit ["t0"] [], exStoreTagged) :=
  ⟨rfl, by decide, rfl⟩

/-- C7 (amended): if the store records geocoder tag `t` and the command line
requests `r ≠ t`, the run always terminates with a nonzero exit before any
geocoding is attempted (the outcome does not depend on the backend), and
the persisted store file is unchanged.  Whenever validation itself returns,
the failure is the configuration error, with the in-memory store as
validation left it; under the default policy (no delete flags) the
in-memory store at exit is exactly the original store.  (With opt-in repair
flags, validation's deletions may modify the in-memory list before the
configuration error fires — the counterexample above.) -/
theorem c7_amended_geocoder_mismatch (flags : Flags)
    (g g' : List (ℚ × ℚ) → List String) (parse : String → String)
    (rawLocs : List RawEntry) (store : Store) (t r : String) (oldBytes : String)
    (hndRaw : (rawLocs.map (fun e => parse e.timestamp)).Nodup)
    (hndAnn : (store.locations.map (fun e => parse e.timestamp)).Nodup)
    (ht : store.geocoder = some t) (hr : flags.geocoder = some r) (hne : t ≠ r) :
    (∃ k s, pipeline flags g parse rawLocs store = Except.error (k, s)) ∧
    pipeline flags g parse rawLocs store = pipeline flags g' parse rawLocs store ∧
    persistedAfterRun flags g parse rawLocs store oldBytes = oldBytes ∧
    (∀ vres, validate flags
        (map_by_timestamp (fun e : AnnEntry => parse e.timestamp) store.locations).1
        (map_by_timestamp (fun e : RawEntry => parse e.timestamp) rawLocs).1
        (map_by_timestamp (fun e : AnnEntry => parse e.timestamp) store.locations).2
        store = Except.ok vres →
      pipeline flags g parse rawLocs store =
        Except.error (ExitKind.configMismatch, vres.store)) ∧
    (flags.delete_missing = false → flags.delete_changed = false →
      ∀ k s, pipeline flags g parse rawLocs store = Except.error (k, s) →
        s = store) := by
  have hndA : (dictKeys
      (map_by_timestamp (fun e : AnnEntry => parse e.timestamp) store.locations).1).Nodup := by
    rw [map_by_timestamp_eq_of_nodup _ _ hndAnn]
    rw [dictKeys_keyedList]
    exact hndAnn
  have hndR : (dictKeys
      (map_by_timestamp (fun e : RawEntry => parse e.timestamp) rawLocs).1).Nodup := by
    rw [map_by_timestamp_eq_of_nodup _ _ hndRaw]
    rw [dictKeys_keyedList]
    exact hndRaw
  have hmain : ∀ gg : List (ℚ × ℚ) → List String,
      pipeline flags gg parse rawLocs store =
        (match validate flags
            (map_by_timestamp (fun e : AnnEntry => parse e.timestamp) store.locations).1
            (map_by_timestamp (fun e : RawEntry => parse e.timestamp) rawLocs).1
            (map_by_timestamp (fun e : AnnEntry => parse e.timestamp) store.locations).2
            store with
         | Except.error (ValidateExit.exit pm pc) =>
             Except.error (ExitKind.validateExit pm pc, store)
         | Except.error ValidateExit.keyError =>
             Except.error (ExitKind.validateKeyError, store)
         | Except.ok vres => Except.error (ExitKind.configMismatch, vres.store)) := by
    intro gg
    simp only [pipeline]
    cases hval : validate flags
        (map_by_timestamp (fun e : AnnEntry => parse e.timestamp) store.locations).1
        (map_by_timestamp (fun e : RawEntry => parse e.timestamp) rawLocs).1
        (map_by_timestamp (fun e : AnnEntry => parse e.timestamp) store.locations).2
        store with
    | error err => cases err <;> rfl
    | ok vres =>
      have htrim := (validate_ok_trim flags _ _ _ store vres hndA hndR hval).2
      have hgeo : vres.store.geocoder = some t := by
        obtain ⟨_, _, indices, _, hv⟩ :=
          validate_ok_spec flags _ _ _ store vres hval
        rw [hv]
        exact ht
      have hann : ∀ pend, annotate flags gg vres.store pend = Except.error () := by
        intro pend
        simp only [annotate, hgeo, hr]
        rw [if_pos hne]
      simp only [htrim, hann]
  refine ⟨?_, ?_, ?_, ?_, ?_⟩
  · rw [hmain g]
    cases hval : validate flags
        (map_by_timestamp (fun e : AnnEntry => parse e.timestamp) store.locations).1
        (map_by_timestamp (fun e : RawEntry => parse e.timestamp) rawLocs).1
        (map_by_timestamp (fun e : AnnEntry => parse e.timestamp) store.locations).2
        store with
    | error err =>
      cases err with
      | exit pm pc => exact ⟨ExitKind.validateExit pm pc, store, rfl⟩
      | keyError => exact ⟨ExitKind.validateKeyError, store, rfl⟩
    | ok vres => exact ⟨ExitKind.configMismatch, vres.store, rfl⟩
  · rw [hmain g, hmain g']
  · rw [persistedAfterRun, hmain g]
    cases hval : validate flags
        (map_by_timestamp (fun e : AnnEntry => parse e.timestamp) store.locations).1
        (map_by_timestamp (fun e : RawEntry => parse e.timestamp) rawLocs).1
        (map_by_timestamp (fun e : AnnEntry => parse e.timestamp) store.locations).2
        store with
    | error err => cases err <;> rfl
    | ok vres => rfl
  · intro vres hvok
    rw [hmain g, hvok]
  · intro hdm hdc k s hp
    rw [hmain g] at hp
    cases hval : validate flags
        (map_by_timestamp (fun e : AnnEntry => parse e.timestamp) store.locations).1
        (map_by_timestamp (fun e : RawEntry => parse e.timestamp) rawLocs).1
        (map_by_timestamp (fun e : AnnEntry => parse e.timestamp) store.locations).2
        store with
    | error err =>
      rw [hval] at hp
      cases err with
      | exit pm pc =>
        have := Prod.mk.injEq .. ▸ Except.error.inj hp
        exact (congrArg Prod.snd (Except.error.inj hp)).symm
      | keyError =>
        exact (congrArg Prod.snd (Except.error.inj hp)).symm
    | ok vres =>
      rw [hval] at hp
      have hs : s = vres.store := (congrArg Prod.snd (Except.error.inj hp)).symm
      obtain ⟨hm, hc, indices, hlook, hv⟩ :=
        validate_ok_spec flags _ _ _ store vres hval
      have hm0 : (classifyGo
          (map_by_timestamp (fun e : AnnEntry => parse e.timestamp) store.locations).1
          (map_by_timestamp (fun e : RawEntry => parse e.timestamp) rawLocs).1).1 = [] := by
        rcases hm with h | h
        · exact h
        · rw [hdm] at h; cases h
      have hc0 : (classifyGo
          (map_by_timestamp (fun e : AnnEntry => parse e.timestamp) store.locations).1
          (map_by_timestamp (fun e : RawEntry => parse e.timestamp) rawLocs).1).2 = [] := by
        rcases hc with h | h
        · exact h
        · rw [hdc] at h; cases h
      rw [hm0, hc0] at hlook
      have hidx : indices = [] := by
        have : lookupIndices
            (map_by_timestamp (fun e : AnnEntry => parse e.timestamp) store.locations).2
            ([] ++ []) = some [] := rfl
        rw [this] at hlook
        exact (Option.some.inj hlook).symm
      rw [hs, hv, hidx]
      rfl

end Geo

namespace Geo

/-- Witness for amended C7: consistent store tagged `local`, command line
requesting `osm`, default policy. -/
theorem c7_amended_geocoder_mismatch_witness :
    (∃ k s, pipeline exFlagsOsmDefault (fun _ => []) (fun s => s) [exRaw1]
        { geocoder := some "local", locations := [exAnn1] } =
        Except.error (k, s)) ∧
    pipeline exFlagsOsmDefault (fun _ => []) (fun s => s) [exRaw1]
        { geocoder := some "local", locations := [exAnn1] } =
      pipeline exFlagsOsmDefault (fun _ => ["XX"]) (fun s => s) [exRaw1]
        { geocoder := some "local", locations := [exAnn1] } ∧
    persistedAfterRun exFlagsOsmDefault (fun _ => []) (fun s => s) [exRaw1]
        { geocoder := some "local", locations := [exAnn1] } "old-bytes" =
      "old-bytes" ∧
    (∀ vres, validate exFlagsOsmDefault
        (map_by_timestamp (fun e : AnnEntry => e.timestamp) [exAnn1]).1
        (map_by_timestamp (fun e : RawEntry => e.timestamp) [exRaw1]).1
        (map_by_timestamp (fun e : AnnEntry => e.timestamp) [exAnn1]).2
        { geocoder := some "local", locations := [exAnn1] } = Except.ok vres →
      pipeline exFlagsOsmDefault (fun _ => []) (fun s => s) [exRaw1]
          { geocoder := some "local", locations := [exAnn1] } =
        Except.error (ExitKind.configMismatch, vres.store)) ∧
    (exFlagsOsmDefault.delete_missing = false →
      exFlagsOsmDefault.delete_changed = false →
      ∀ k s, pipeline exFlagsOsmDefault (fun _ => []) (fun s => s) [exRaw1]
          { geocoder := some "local", locations := [exAnn1] } =
          Except.error (k, s) →
        s = { geocoder := some "local", locations := [exAnn1] }) :=
  c7_amended_geocoder_mismatch exFlagsOsmDefault (fun _ => []) (fun _ => ["XX"])
    (fun s => s) [exRaw1] { geocoder := some "local", locations := [exAnn1] }
    "local" "osm" "old-bytes" (by decide) (by decide) rfl rfl (by decide)

end Geo

namespace Geo

/-! ## Claim C3: helper lemmas -/

/-- An entry built by the annotator from a raw entry agrees with it on all
four compared fields. -/
theorem entryChanged_mkAnnEntry (st : String) (r : RawEntry) :
    entryChanged (mkAnnEntry st r) r = false := by
  simp [entryChanged, mkAnnEntry]

theorem mem_zipWith {α β γ : Type} (f : α → β → γ) (xs : List α) (ys : List β)
    (c : γ) (h : c ∈ List.zipWith f xs ys) :
    ∃ x ∈ xs, ∃ y ∈ ys, c = f x y := by
  induction xs generalizing ys with
  | nil => simp at h
  | cons x xs ih =>
    cases ys with
    | nil => simp at h
    | cons y ys =>
      rw [List.zipWith_cons_cons] at h
      rcases List.mem_cons.mp h with rfl | h'
      · exact ⟨x, List.mem_cons_self _ _, y, List.mem_cons_self _ _, rfl⟩
      · obtain ⟨x', hx, y', hy, rfl⟩ := ih ys h'
        exact ⟨x', List.mem_cons_of_mem _ hx, y', List.mem_cons_of_mem _ hy, rfl⟩

/-- The parsed timestamps of the appended entries are those of the zipped
prefix of the pending raw entries. -/
theorem map_parse_zipWith (parse : String → String) (states : List String)
    (pv : List RawEntry) :
    (List.zipWith mkAnnEntry states pv).map (fun e => parse e.timestamp) =
      (pv.take states.length).map (fun r => parse r.timestamp) := by
  induction states generalizing pv with
  | nil => simp
  | cons st states ih =>
    cases pv with
    | nil => simp
    | cons r pv =>
      rw [List.zipWith_cons_cons, List.map_cons, List.length_cons,
        List.take_succ_cons, List.map_cons, ih]
      rfl

/-- `annotateBody` never changes the geocoder tag. -/
theorem annotateBody_geocoder (flags : Flags) (g : List (ℚ × ℚ) → List String)
    (store : Store) (tsRaw : List (String × RawEntry)) :
    (annotateBody flags g store tsRaw).1.geocoder = store.geocoder := by
  rw [annotateBody]
  by_cases hc : coordsOf flags tsRaw = []
  · rw [if_pos hc]
  · rw [if_neg hc]

/-- Full characterization of a successful `annotate` call: the location list
grows by a zip of backend states with the pending entries, and the
geocoder tag ends up set, matching any requested backend and any
pre-existing tag. -/
theorem annotate_ok_full (flags : Flags) (g : List (ℚ × ℚ) → List String)
    (store : Store) (tsRaw : List (String × RawEntry)) (store' : Store)
    (rem : Option Nat)
    (hrun : annotate flags g store tsRaw = Except.ok (store', rem)) :
    (∃ states, store'.locations = store.locations ++
        List.zipWith mkAnnEntry states (pendingOf tsRaw)) ∧
    store'.geocoder.isSome = true ∧
    (∀ r, flags.geocoder = some r → store'.geocoder = some r) ∧
    (∀ t, store.geocoder = some t → store'.geocoder = some t) := by
  obtain ⟨base, hbase, hbody⟩ := annotate_ok_body flags g store tsRaw store' rem hrun
  have hbody_loc : store'.locations = base.locations ++
      List.zipWith mkAnnEntry
        (if coordsOf flags tsRaw = [] then [] else g (coordsOf flags tsRaw))
        (pendingOf tsRaw) ∧ store'.geocoder = base.geocoder := by
    rw [annotateBody] at hbody
    by_cases hc : coordsOf flags tsRaw = []
    · rw [if_pos hc] at hbody
      obtain rfl : base = store' := congrArg Prod.fst hbody
      rw [if_pos hc]
      simp
    · rw [if_neg hc] at hbody
      have h1 := congrArg Prod.fst hbody
      simp only at h1
      rw [if_neg hc, ← h1]
      exact ⟨rfl, rfl⟩
  have hgeo_base : store'.geocoder = base.geocoder := hbody_loc.2
  constructor
  · exact ⟨_, by rw [hbody_loc.1, hbase]⟩
  · -- geocoder facts, by the same case analysis as `annotate_ok_body`
    cases hg : store.geocoder with
    | some t =>
      cases hf : flags.geocoder with
      | some r =>
        simp only [annotate, hg, hf] at hrun
        by_cases hne : t ≠ r
        · rw [if_pos hne] at hrun
          cases hrun
        · rw [if_neg hne] at hrun
          have hst : store'.geocoder = some t := by
            have h := congrArg Prod.fst (Except.ok.inj hrun)
            simp only at h
            rw [← h, annotateBody_geocoder]
            exact hg
          push_neg at hne
          refine ⟨by simp [hst], ?_, ?_⟩
          · intro r' hr'
            obtain rfl := Option.some.inj hr'
            rw [hst, hne]
          · intro t' ht'
            obtain rfl := Option.some.inj ht'
            exact hst
      | none =>
        simp only [annotate, hg, hf] at hrun
        have hst : store'.geocoder = some t := by
          have h := congrArg Prod.fst (Except.ok.inj hrun)
          simp only at h
          rw [← h, annotateBody_geocoder]
          exact hg
        refine ⟨by simp [hst], ?_, ?_⟩
        · intro r' hr'
          cases hr'
        · intro t' ht'
          obtain rfl := Option.some.inj ht'
          exact hst
    | none =>
      simp only [annotate, hg] at hrun
      have hst : store'.geocoder = some (flags.geocoder.getD "local") := by
        have h := congrArg Prod.fst (Except.ok.inj hrun)
        simp only at h
        rw [← h, annotateBody_geocoder]
      refine ⟨by simp [hst], ?_, ?_⟩
      · intro r' hr'
        rw [hst, hr']
        rfl
      · intro t' ht'
        cases ht'

end Geo

namespace Geo

/-- C3: running the pipeline a second time on the same raw data — when every
raw timestamp is already in the (first run's) store with identical
`timestamp`, `latitudeE7`, `longitudeE7` and `accuracy` — returns the store
unchanged: validation passes without deletions, `trim` empties the pending
set, `annotate` returns without appending (and with no remaining count),
and the deterministic serializer writes byte-identical output. -/
theorem c3_idempotent_second_run (flags : Flags) (g : List (ℚ × ℚ) → List String)
    (parse : String → String) (rawLocs : List RawEntry) (store0 store1 : Store)
    (hndRaw : (rawLocs.map (fun e => parse e.timestamp)).Nodup)
    (hndAnn0 : (store0.locations.map (fun e => parse e.timestamp)).Nodup)
    (hrun1 : pipeline flags g parse rawLocs store0 = Except.ok store1)
    (hnonew : ∀ rr ∈ rawLocs, ∃ a ∈ store1.locations,
        a.timestamp = rr.timestamp ∧ a.latitudeE7 = rr.latitudeE7 ∧
        a.longitudeE7 = rr.longitudeE7 ∧ a.accuracy = rr.accuracy) :
    pipeline flags g parse rawLocs store1 = Except.ok store1 ∧
    validate flags
        (map_by_timestamp (fun e : AnnEntry => parse e.timestamp) store1.locations).1
        (map_by_timestamp (fun e : RawEntry => parse e.timestamp) rawLocs).1
        (map_by_timestamp (fun e : AnnEntry => parse e.timestamp) store1.locations).2
        store1 =
      Except.ok (ValidateResult.mk
        (map_by_timestamp (fun e : AnnEntry => parse e.timestamp) store1.locations).1
        store1) ∧
    trim (map_by_timestamp (fun e : AnnEntry => parse e.timestamp) store1.locations).1
        (map_by_timestamp (fun e : RawEntry => parse e.timestamp) rawLocs).1 =
      Except.ok [] ∧
    annotate flags g store1 [] = Except.ok (store1, none) ∧
    persistedAfterRun flags g parse rawLocs store1 (write_json_file store1) =
      write_json_file store1 := by
  have hR := map_by_timestamp_eq_of_nodup (fun e : RawEntry => parse e.timestamp)
    rawLocs hndRaw
  have hA0 := map_by_timestamp_eq_of_nodup (fun e : AnnEntry => parse e.timestamp)
    store0.locations hndAnn0
  have hndRK : (dictKeys (keyedList (fun e : RawEntry => parse e.timestamp)
      rawLocs)).Nodup := by
    rw [dictKeys_keyedList]
    exact hndRaw
  have hndA0K : (dictKeys (keyedList (fun e : AnnEntry => parse e.timestamp)
      store0.locations)).Nodup := by
    rw [dictKeys_keyedList]
    exact hndAnn0
  -- decompose the first run
  simp only [pipeline] at hrun1
  cases hval : validate flags
      (map_by_timestamp (fun e : AnnEntry => parse e.timestamp) store0.locations).1
      (map_by_timestamp (fun e : RawEntry => parse e.timestamp) rawLocs).1
      (map_by_timestamp (fun e : AnnEntry => parse e.timestamp) store0.locations).2
      store0 with
  | error err =>
    cases err <;> simp [hval] at hrun1
  | ok vres =>
  cases htrim : trim vres.tsToAnnotated
      (map_by_timestamp (fun e : RawEntry => parse e.timestamp) rawLocs).1 with
  | error e =>
    simp [hval, htrim] at hrun1
  | ok pending =>
  cases hann : annotate flags g vres.store pending with
  | error e =>
    simp [hval, htrim, hann] at hrun1
  | ok p =>
  obtain ⟨st', rem⟩ := p
  simp only [hval, htrim, hann] at hrun1
  have hst1 : st' = store1 := Except.ok.inj hrun1
  rw [hst1] at hann
  -- keyed forms of the first run's facts
  have hval' : validate flags
      (keyedList (fun e : AnnEntry => parse e.timestamp) store0.locations)
      (keyedList (fun e : RawEntry => parse e.timestamp) rawLocs)
      (indexList (fun e : AnnEntry => parse e.timestamp) 0 store0.locations)
      store0 = Except.ok vres := by
    rw [hA0, hR] at hval
    exact hval
  have htrim' : trim vres.tsToAnnotated
      (keyedList (fun e : RawEntry => parse e.timestamp) rawLocs) =
      Except.ok pending := by
    rw [hR] at htrim
    exact htrim
  obtain ⟨hannd, hstore⟩ := validate_ok_locations_filter flags
    (keyedList (fun e : RawEntry => parse e.timestamp) rawLocs) store0
    (fun e : AnnEntry => parse e.timestamp) hndAnn0 vres hval'
  have hstore_loc : vres.store.locations = store0.locations.filter (fun e =>
      decide ((fun e : AnnEntry => parse e.timestamp) e ∉
        (classifyGo (keyedList (fun e : AnnEntry => parse e.timestamp)
          store0.locations)
          (keyedList (fun e : RawEntry => parse e.timestamp) rawLocs)).1 ++
        (classifyGo (keyedList (fun e : AnnEntry => parse e.timestamp)
          store0.locations)
          (keyedList (fun e : RawEntry => parse e.timestamp) rawLocs)).2)) := by
    rw [hstore]
  have htrimchar := (validate_ok_trim flags
    (keyedList (fun e : AnnEntry => parse e.timestamp) store0.locations)
    (keyedList (fun e : RawEntry => parse e.timestamp) rawLocs)
    (indexList (fun e : AnnEntry => parse e.timestamp) 0 store0.locations)
    store0 vres hndA0K hndRK hval').2
  have hpend : pending =
      (keyedList (fun e : RawEntry => parse e.timestamp) rawLocs).filter
        (fun pr => decide (dictGet vres.tsToAnnotated pr.1 = none)) :=
    Except.ok.inj (htrim'.symm.trans htrimchar)
  obtain ⟨⟨states, hloc⟩, hgsome, hgreq, hgkeep⟩ :=
    annotate_ok_full flags g vres.store pending store1 rem hann
  -- each surviving entry matches its raw counterpart
  have hsurv : ∀ a ∈ vres.store.locations,
      ∃ rr, dictGet (keyedList (fun e : RawEntry => parse e.timestamp) rawLocs)
          (parse a.timestamp) = some rr ∧ entryChanged a rr = false := by
    intro a ha
    rw [hstore_loc] at ha
    have hf := List.mem_filter.mp ha
    have ha0 := hf.1
    have hnotin : parse a.timestamp ∉
        (classifyGo (keyedList (fun e : AnnEntry => parse e.timestamp)
          store0.locations)
          (keyedList (fun e : RawEntry => parse e.timestamp) rawLocs)).1 ++
        (classifyGo (keyedList (fun e : AnnEntry => parse e.timestamp)
          store0.locations)
          (keyedList (fun e : RawEntry => parse e.timestamp) rawLocs)).2 := by
      simpa using hf.2
    have hmemk : (parse a.timestamp, a) ∈
        keyedList (fun e : AnnEntry => parse e.timestamp) store0.locations :=
      List.mem_map.mpr ⟨a, ha0, rfl⟩
    cases hget : dictGet (keyedList (fun e : RawEntry => parse e.timestamp) rawLocs)
        (parse a.timestamp) with
    | none =>
      exfalso
      apply hnotin
      apply List.mem_append_left
      exact (mem_classify_missing _ _ _).mpr ⟨a, hmemk, hget⟩
    | some rr =>
      refine ⟨rr, rfl, ?_⟩
      cases hch : entryChanged a rr with
      | false => rfl
      | true =>
        exfalso
        apply hnotin
        apply List.mem_append_right
        exact (mem_classify_changed _ _ _).mpr ⟨a, rr, hmemk, hget, hch⟩
  -- each appended entry matches its raw counterpart
  have happ : ∀ a ∈ List.zipWith mkAnnEntry states (pendingOf pending),
      ∃ rr, dictGet (keyedList (fun e : RawEntry => parse e.timestamp) rawLocs)
          (parse a.timestamp) = some rr ∧ entryChanged a rr = false := by
    intro a ha
    obtain ⟨st, _, rr, hrr, rfl⟩ := mem_zipWith mkAnnEntry states (pendingOf pending) a ha
    obtain ⟨pr, hpr, hpr2⟩ := List.mem_map.mp hrr
    have hprk : pr ∈ keyedList (fun e : RawEntry => parse e.timestamp) rawLocs := by
      rw [hpend] at hpr
      exact (List.mem_filter.mp hpr).1
    obtain ⟨e, _, hpe⟩ := List.mem_map.mp hprk
    have hfst : pr.1 = parse rr.timestamp := by
      rw [← hpr2, ← hpe]
    have hget : dictGet (keyedList (fun e : RawEntry => parse e.timestamp) rawLocs)
        (parse rr.timestamp) = some rr := by
      apply dictGet_of_mem_nodup _ _ _ hndRK
      rw [← hfst, ← hpr2]
      exact hprk
    exact ⟨rr, hget, entryChanged_mkAnnEntry st rr⟩
  -- hence every store1 entry matches raw, and store1's keys are distinct
  have hall : ∀ a ∈ store1.locations,
      ∃ rr, dictGet (keyedList (fun e : RawEntry => parse e.timestamp) rawLocs)
          (parse a.timestamp) = some rr ∧ entryChanged a rr = false := by
    intro a ha
    rw [hloc] at ha
    rcases List.mem_append.mp ha with h | h
    · exact hsurv a h
    · exact happ a h
  have hndS : ((vres.store.locations).map
      (fun e : AnnEntry => parse e.timestamp)).Nodup := by
    rw [hstore_loc]
    exact ((List.filter_sublist _).map _).nodup hndAnn0
  have hndP : (dictKeys pending).Nodup := by
    rw [hpend]
    exact ((List.filter_sublist _).map Prod.fst).nodup hndRK
  have hZkeys : (List.zipWith mkAnnEntry states (pendingOf pending)).map
      (fun e : AnnEntry => parse e.timestamp) = (dictKeys pending).take states.length := by
    rw [map_parse_zipWith parse states (pendingOf pending)]
    rw [List.map_take]
    congr 1
    rw [pendingOf, List.map_map]
    apply List.map_congr_left
    intro pr hpr
    have hprk : pr ∈ keyedList (fun e : RawEntry => parse e.timestamp) rawLocs := by
      rw [hpend] at hpr
      exact (List.mem_filter.mp hpr).1
    obtain ⟨e, _, hpe⟩ := List.mem_map.mp hprk
    rw [← hpe]
    rfl
  have hndZ : ((List.zipWith mkAnnEntry states (pendingOf pending)).map
      (fun e : AnnEntry => parse e.timestamp)).Nodup := by
    rw [hZkeys]
    exact (List.take_sublist _ _).nodup hndP
  have hdisjSZ : ((vres.store.locations).map
      (fun e : AnnEntry => parse e.timestamp)).Disjoint
      ((List.zipWith mkAnnEntry states (pendingOf pending)).map
        (fun e : AnnEntry => parse e.timestamp)) := by
    intro ts hS hZ
    rw [hZkeys] at hZ
    have hZ' : ts ∈ dictKeys pending := (List.take_sublist _ _).mem hZ
    have hnoneZ : dictGet vres.tsToAnnotated ts = none := by
      rw [dictKeys, List.mem_map] at hZ'
      obtain ⟨pr, hpr, rfl⟩ := hZ'
      rw [hpend] at hpr
      have := (List.mem_filter.mp hpr).2
      simpa using this
    rw [List.mem_map] at hS
    obtain ⟨a, haS, rfl⟩ := hS
    rw [hstore_loc] at haS
    have hf := List.mem_filter.mp haS
    have hmemA : (parse a.timestamp, a) ∈ vres.tsToAnnotated := by
      rw [hannd]
      apply List.mem_filter.mpr
      exact ⟨List.mem_map.mpr ⟨a, hf.1, rfl⟩, hf.2⟩
    have : (dictGet vres.tsToAnnotated (parse a.timestamp)).isSome = true :=
      (dictGet_isSome_iff _ _).mpr ⟨_, hmemA, rfl⟩
    rw [hnoneZ] at this
    cases this
  have hndStore1 : (store1.locations.map
      (fun e : AnnEntry => parse e.timestamp)).Nodup := by
    rw [hloc, List.map_append]
    exact hndS.append hndZ hdisjSZ
  have hnd1K : (dictKeys (keyedList (fun e : AnnEntry => parse e.timestamp)
      store1.locations)).Nodup := by
    rw [dictKeys_keyedList]
    exact hndStore1
  have hA1 := map_by_timestamp_eq_of_nodup (fun e : AnnEntry => parse e.timestamp)
    store1.locations hndStore1
  -- the second run's classification is empty
  have h1 : (classifyGo (keyedList (fun e : AnnEntry => parse e.timestamp)
      store1.locations)
      (keyedList (fun e : RawEntry => parse e.timestamp) rawLocs)).1 = [] := by
    rw [classifyGo_fst, List.map_eq_nil, List.filter_eq_nil]
    intro q hq
    obtain ⟨a, ha, rfl⟩ := List.mem_map.mp hq
    obtain ⟨rr, hget, _⟩ := hall a ha
    simp [hget]
  have h2 : (classifyGo (keyedList (fun e : AnnEntry => parse e.timestamp)
      store1.locations)
      (keyedList (fun e : RawEntry => parse e.timestamp) rawLocs)).2 = [] := by
    rw [classifyGo_snd, List.map_eq_nil, List.filter_eq_nil]
    intro q hq
    obtain ⟨a, ha, rfl⟩ := List.mem_map.mp hq
    obtain ⟨rr, hget, hch⟩ := hall a ha
    simp [hget, hch]
  have hval2 : validate flags
      (keyedList (fun e : AnnEntry => parse e.timestamp) store1.locations)
      (keyedList (fun e : RawEntry => parse e.timestamp) rawLocs)
      (indexList (fun e : AnnEntry => parse e.timestamp) 0 store1.locations)
      store1 = Except.ok (ValidateResult.mk
        (keyedList (fun e : AnnEntry => parse e.timestamp) store1.locations)
        store1) := by
    have hcond2 : ¬(((classifyGo (keyedList (fun e : AnnEntry => parse e.timestamp)
        store1.locations)
        (keyedList (fun e : RawEntry => parse e.timestamp) rawLocs)).1 ≠ [] ∧
          ¬flags.delete_missing = true) ∨
        ((classifyGo (keyedList (fun e : AnnEntry => parse e.timestamp)
        store1.locations)
        (keyedList (fun e : RawEntry => parse e.timestamp) rawLocs)).2 ≠ [] ∧
          ¬flags.delete_changed = true)) := by
      rw [h1, h2]
      simp
    simp only [validate, if_neg hcond2]
    rw [h1, h2]
    rfl
  have htrim2 : trim (keyedList (fun e : AnnEntry => parse e.timestamp)
      store1.locations)
      (keyedList (fun e : RawEntry => parse e.timestamp) rawLocs) =
      Except.ok [] := by
    have hsub2 : ∀ q ∈ keyedList (fun e : AnnEntry => parse e.timestamp)
        store1.locations,
        (dictGet (keyedList (fun e : RawEntry => parse e.timestamp) rawLocs)
          q.1).isSome = true := by
      intro q hq
      obtain ⟨a, ha, rfl⟩ := List.mem_map.mp hq
      obtain ⟨rr, hget, _⟩ := hall a ha
      simp [hget]
    rw [trim_ok_of_subset _ _ hnd1K hndRK hsub2]
    congr 1
    rw [List.filter_eq_nil]
    intro pr hpr
    obtain ⟨rr, hrr, rfl⟩ := List.mem_map.mp hpr
    obtain ⟨a, haS, hts, _, _, _⟩ := hnonew rr hrr
    have hkey : parse a.timestamp = parse rr.timestamp := by rw [hts]
    have hsome : (dictGet (keyedList (fun e : AnnEntry => parse e.timestamp)
        store1.locations) (parse rr.timestamp)).isSome = true := by
      apply (dictGet_isSome_iff _ _).mpr
      exact ⟨(parse a.timestamp, a), List.mem_map.mpr ⟨a, haS, rfl⟩, hkey⟩
    simp only [decide_eq_true_eq]
    intro hnone
    rw [hnone] at hsome
    cases hsome
  have hann2 : annotate flags g store1 [] = Except.ok (store1, none) := by
    cases hfg : flags.geocoder with
    | none =>
      cases hsg : store1.geocoder with
      | none =>
        exfalso
        rw [hsg] at hgsome
        cases hgsome
      | some t1 =>
        simp only [annotate, hsg, hfg]
        rfl
    | some r =>
      have hs1 := hgreq r hfg
      simp only [annotate, hs1, hfg]
      rw [if_neg (by simp)]
      rfl
  -- transfer to the `map_by_timestamp` forms the pipeline uses
  have hval2m : validate flags
      (map_by_timestamp (fun e : AnnEntry => parse e.timestamp) store1.locations).1
      (map_by_timestamp (fun e : RawEntry => parse e.timestamp) rawLocs).1
      (map_by_timestamp (fun e : AnnEntry => parse e.timestamp) store1.locations).2
      store1 = Except.ok (ValidateResult.mk
        (map_by_timestamp (fun e : AnnEntry => parse e.timestamp) store1.locations).1
        store1) := by
    rw [hA1, hR]
    exact hval2
  have htrim2m : trim
      (map_by_timestamp (fun e : AnnEntry => parse e.timestamp) store1.locations).1
      (map_by_timestamp (fun e : RawEntry => parse e.timestamp) rawLocs).1 =
      Except.ok [] := by
    rw [hA1, hR]
    exact htrim2
  have hpipe2 : pipeline flags g parse rawLocs store1 = Except.ok store1 := by
    simp only [pipeline, hval2m, htrim2m, hann2]
  refine ⟨hpipe2, hval2m, htrim2m, hann2, ?_⟩
  rw [persistedAfterRun, hpipe2]

/-- Empty starting store for the idempotence witness. -/
def exStore0C3 : Store :=
  { geocoder := none, locations := [] }

/-- Store produced by the first run on `[exRaw1]`: the default tag is set and
the one pending point is annotated `NY`. -/
def exStore1C3 : Store :=
  { geocoder := some "local", locations := [exAnn1] }

/-- Witness for C3: a concrete first run (empty store, one raw point, backend
returning `NY`) succeeds and produces `exStore1C3`; the second run returns
that store unchanged. -/
theorem c3_idempotent_second_run_witness :
    pipeline exFlagsDefault (fun _ => ["NY"]) (fun s => s) [exRaw1] exStore0C3 =
      Except.ok exStore1C3 ∧
    pipeline exFlagsDefault (fun _ => ["NY"]) (fun s => s) [exRaw1] exStore1C3 =
      Except.ok exStore1C3 :=
  ⟨by rfl,
   (c3_idempotent_second_run exFlagsDefault (fun _ => ["NY"]) (fun s => s)
     [exRaw1] exStore0C3 exStore1C3 (by decide) (by decide) (by rfl)
     (by decide)).1⟩

end Geo
